import Mathlib

/-!
# Verification of the Helicone AI-SDK provider adapter

Shallow embedding of the request/response/stream translation layer of the
Helicone provider adapter, together with proofs about it.

The embedding covers:
* `mapHeliconeFinishReason` (finish-reason vocabulary, `helicone-error.ts`);
* `convertToHeliconePrompt` (message translator, `convert-to-helicone-prompt.ts`);
* the tool-definition mapping of `buildRequestBody`
  (`helicone-language-model.ts`);
* the success-path response translation of `doGenerate`;
* the streaming state machine of `doStream` — the defensive, position-keyed
  variant, which the design notes designate as the authoritative contract.

JavaScript `undefined`/`null` optionality is modelled with `Option`; JS
truthiness of strings ("" is falsy) with explicit helpers; machine calls to
the external `JSON.parse` / `JSON.stringify` / base64 builtins are passed in
as function parameters (a throwing `JSON.parse` is a parameter returning
`none`).  Streaming input is modelled at the granularity of already-framed
`data:` payloads: a frame either failed `JSON.parse` (`Item.malformed`,
skipped by the loop, which also covers `[DONE]` and non-`data:` lines) or
carries the parsed first choice and usage snapshot.
-/

namespace Helicone

/-- Truncated JSON value universe, used for parsed tool inputs and schemas. -/
inductive JSVal where
  | null
  | bool (b : Bool)
  | num (n : Int)
  | str (s : String)
  | arr (xs : List JSVal)
  | obj (fields : List (String × JSVal))
deriving Repr

/-- JS truthiness of a `JSVal` (objects and arrays are always truthy). -/
def jsTruthyVal : JSVal → Bool
  | .null => false
  | .bool b => b
  | .num n => n != 0
  | .str s => s != ""
  | .arr _ => true
  | .obj _ => true

/-- JS truthiness of a possibly-absent string (`undefined`, `null` and `""`
are falsy). -/
def oTruthy : Option String → Bool
  | none => false
  | some s => s != ""

/-- JS disjunction `x || d` for a possibly-absent string `x` and a string
default `d`. -/
def jsOrD (x : Option String) (d : String) : String :=
  match x with
  | none => d
  | some s => if s = "" then d else s

/-- The `{type:"object"}` fallback schema. -/
def objTypeObject : JSVal := .obj [("type", .str "object")]

/-!
## Error mapper (`helicone-error.ts`)

`mapHeliconeFinishReason` translates the upstream finish-reason literal into
the vendor-neutral vocabulary.  A `switch` on a string is a chain of `===`
comparisons; `null`/`undefined` fall through to the `default` arm, which we
model by `Option.none`.
-/

/-- Embedding of `mapHeliconeFinishReason` (`helicone-error.ts`, lines
66–85). -/
def mapHeliconeFinishReason (finishReason : Option String) : String :=
  match finishReason with
  | none => "other"
  | some s =>
    if s = "stop" then "stop"
    else if s = "length" then "length"
    else if s = "max_tokens" then "length"
    else if s = "content_filter" then "content-filter"
    else if s = "tool_calls" then "tool-calls"
    else if s = "function_call" then "tool-calls"
    else if s = "eos" then "stop"
    else "other"

/-- The upstream literals with a dedicated mapping arm. -/
def knownFinishReasons : List String :=
  ["stop", "length", "max_tokens", "content_filter", "tool_calls",
   "function_call", "eos"]

end Helicone

namespace Helicone

/-- C7: the finish-reason mapper maps `stop`/`eos` to `stop`,
`length`/`max_tokens` to `length`, `content_filter` to `content-filter`,
`tool_calls`/`function_call` to `tool-calls`, and everything else —
including `null`/`undefined` (modelled by `none`) and the unknown literal
`"safety_block"` — to `other`. -/
theorem finish_reason_mapping_exact :
    mapHeliconeFinishReason (some "stop") = "stop" ∧
    mapHeliconeFinishReason (some "eos") = "stop" ∧
    mapHeliconeFinishReason (some "length") = "length" ∧
    mapHeliconeFinishReason (some "max_tokens") = "length" ∧
    mapHeliconeFinishReason (some "content_filter") = "content-filter" ∧
    mapHeliconeFinishReason (some "tool_calls") = "tool-calls" ∧
    mapHeliconeFinishReason (some "function_call") = "tool-calls" ∧
    mapHeliconeFinishReason none = "other" ∧
    mapHeliconeFinishReason (some "safety_block") = "other" ∧
    ∀ s : String, s ∉ knownFinishReasons →
      mapHeliconeFinishReason (some s) = "other" := by
  refine ⟨rfl, rfl, rfl, rfl, rfl, rfl, rfl, rfl, rfl, ?_⟩
  intro s hs
  simp only [knownFinishReasons, List.mem_cons, List.not_mem_nil, or_false,
    not_or] at hs
  obtain ⟨h1, h2, h3, h4, h5, h6, h7⟩ := hs
  simp [mapHeliconeFinishReason, h1, h2, h3, h4, h5, h6, h7]

/-- Witness for C7: instantiating the default arm at the concrete unknown
literal `"safety_block"`. -/
theorem finish_reason_mapping_exact_witness :
    "safety_block" ∉ knownFinishReasons ∧
    mapHeliconeFinishReason (some "safety_block") = "other" :=
  ⟨by decide, finish_reason_mapping_exact.2.2.2.2.2.2.2.2.2 "safety_block"
      (by decide)⟩

/-!
## Non-streaming response translator (`doGenerate`)

`doGenerate`'s success path reads `data.choices[0]` without a guard: a
missing or empty `choices` array raises a `TypeError`, which the enclosing
`catch` wraps in a `HeliconeError` (the thrown error is never named
`AbortError`, so the re-throw branch does not apply).  `JSON.parse` of a
tool call's argument string is passed in as `parse` (`none` = throws). -/

/-- A `usage` object on the wire; every field may be absent. -/
structure UsageSnap where
  prompt_tokens : Option Nat
  completion_tokens : Option Nat
  total_tokens : Option Nat
deriving DecidableEq

/-- The adapter's reported usage triple. -/
structure Usage where
  inputTokens : Nat
  outputTokens : Nat
  totalTokens : Nat
deriving DecidableEq

/-- A `message.tool_calls[i]` entry of a non-streaming response. -/
structure GenToolCall where
  id : String
  name : String
  arguments : String
deriving DecidableEq

/-- A `choices[0].message` of a non-streaming response. -/
structure GenMessage where
  content : Option String
  tool_calls : Option (List GenToolCall)
deriving DecidableEq

/-- A `choices[i]` entry of a non-streaming response. -/
structure GenChoice where
  message : GenMessage
  finish_reason : Option String
deriving DecidableEq

/-- A parsed non-streaming response body; `choices := none` models a body
with no `choices` array at all, `some []` an empty one. -/
structure GenData where
  choices : Option (List GenChoice)
  usage : Option UsageSnap
deriving DecidableEq

/-- A vendor-neutral content part of a `doGenerate` result. -/
inductive GenContent where
  | text (t : String)
  | toolCall (toolCallId toolName : String) (input : JSVal)

/-- The vendor-neutral `doGenerate` result. -/
structure GenResult where
  content : List GenContent
  finishReason : String
  usage : Usage

/-- The usage computation of `doGenerate`
(`data.usage?.prompt_tokens ?? 0`, etc., with
`total_tokens ?? prompt + completion`). -/
def genUsage (u : Option UsageSnap) : Usage :=
  { inputTokens := (u.bind UsageSnap.prompt_tokens).getD 0
    outputTokens := (u.bind UsageSnap.completion_tokens).getD 0
    totalTokens := (u.bind UsageSnap.total_tokens).getD
      ((u.bind UsageSnap.prompt_tokens).getD 0 +
       (u.bind UsageSnap.completion_tokens).getD 0) }

/-- The body of `doGenerate`'s `try` block after a 2xx response
(`helicone-language-model.ts`, lines 210–244): unguarded first-choice
access, text part if `message.content` is truthy, one tool-call part per
`tool_calls` entry with `JSON.parse`d arguments, then finish reason and
usage. -/
def translateGenerate (parse : String → Option JSVal) (data : GenData) :
    Except String GenResult :=
  match data.choices with
  | none => .error "TypeError: data.choices is undefined"
  | some [] => .error "TypeError: choices[0] is undefined"
  | some (choice :: _) =>
    let message := choice.message
    let textContent : List GenContent :=
      if oTruthy message.content then [.text (message.content.getD "")] else []
    match (match message.tool_calls with
           | none => Except.ok ([] : List GenContent)
           | some tcs => tcs.mapM fun (tc : GenToolCall) =>
               match parse tc.arguments with
               | some v => Except.ok (GenContent.toolCall tc.id tc.name v)
               | none => Except.error ("SyntaxError: invalid JSON: " ++ tc.arguments)) with
    | .error e => .error e
    | .ok toolContent =>
      .ok { content := textContent ++ toolContent
            finishReason := mapHeliconeFinishReason choice.finish_reason
            usage := genUsage data.usage }

/-- Observable outcome of `doGenerate` after the `catch` wrapper. -/
inductive GenOutcome where
  | ok (result : GenResult)
  | heliconeError (message : String)

/-- Outcome of `doGenerate` including its `catch`: any error thrown while translating
(never an `AbortError`) is wrapped into a `HeliconeError` whose message is
prefixed `Failed to generate response: `. -/
def doGenerateOutcome (parse : String → Option JSVal) (data : GenData) :
    GenOutcome :=
  match translateGenerate parse data with
  | .ok r => .ok r
  | .error e => .heliconeError ("Failed to generate response: " ++ e)

/-!
## Request builder: tool-definition mapping (`buildRequestBody`)

`buildRequestBody` maps each tool to
`{type:'function', function:{name, description, parameters}}`.  The call to
the schema-conversion helper `asSchema` is passed in as `conv : JSVal →
Option JSVal`, returning the helper's `.jsonSchema` on success and `none`
when the helper throws. -/

/-- The JS test `typeof v` = `object` (true for objects, arrays and
`null`). -/
def jsTypeofObject : JSVal → Bool
  | .obj _ => true
  | .arr _ => true
  | .null => true
  | _ => false

/-- JS property access `v[key]` (absent on non-objects). -/
def jsGet (v : JSVal) (key : String) : Option JSVal :=
  match v with
  | .obj fields => fields.lookup key
  | _ => none

/-- JS disjunction `x || y` for possibly-absent strings (returns `y` unchanged when `x` is
falsy). -/
def jsOrOpt (x y : Option String) : Option String :=
  if oTruthy x then x else y

/-- Object spread `{...a, ...b}`: keys of `a` keep their position (values
overridden by `b`), keys only in `b` are appended. -/
def jsSpread (a b : List (String × JSVal)) : List (String × JSVal) :=
  a.map (fun kv => match b.lookup kv.1 with
                   | some v => (kv.1, v)
                   | none => kv) ++
  b.filter (fun kv => (a.lookup kv.1).isNone)

/-- The spread `\x7btype:'object', ...v\x7d` for an object-typed `inputSchema`
value. -/
def spreadTypeObject : JSVal → JSVal
  | .obj fs => .obj (jsSpread [("type", .str "object")] fs)
  | .arr xs =>
      .obj (jsSpread [("type", .str "object")]
        (xs.enum.map (fun ix => (toString ix.1, ix.2))))
  | _ => objTypeObject

/-- A tool definition as seen by `buildRequestBody` (the AI SDK may supply
either `parameters` or `inputSchema`). -/
structure ToolDef where
  name : Option String
  toolName : Option String
  description : Option String
  parameters : Option JSVal
  inputSchema : Option JSVal

/-- A `tools[i].function` entry of the outbound body. -/
structure WireTool where
  name : Option String
  description : String
  parameters : JSVal

/-- The `parameters` normalization of `buildRequestBody`
(`helicone-language-model.ts`, lines 135–160): try `asSchema` on a truthy
`tool.parameters`, on failure fall back to the raw value when it is
object-typed (else `{type:'object'}`); otherwise consult `inputSchema`. -/
def mapToolParameters (conv : JSVal → Option JSVal) (t : ToolDef) : JSVal :=
  match t.parameters with
  | some pv =>
    if jsTruthyVal pv then
      match conv pv with
      | some js => js
      | none => if jsTypeofObject pv then pv else objTypeObject
    else mapFromInputSchema t
  | none => mapFromInputSchema t
where
  /-- The `else if (tool.inputSchema)` branch. -/
  mapFromInputSchema (t : ToolDef) : JSVal :=
    match t.inputSchema with
    | some sv =>
      if jsTruthyVal sv then
        match jsGet sv "jsonSchema" with
        | some js =>
          if jsTruthyVal js then js
          else if jsTypeofObject sv then spreadTypeObject sv else objTypeObject
        | none => if jsTypeofObject sv then spreadTypeObject sv else objTypeObject
      else objTypeObject
    | none => objTypeObject

/-- One tool's outbound `function` object. -/
def mapTool (conv : JSVal → Option JSVal) (t : ToolDef) : WireTool :=
  { name := jsOrOpt t.name t.toolName
    description := jsOrD t.description ""
    parameters := mapToolParameters conv t }

/-- The whole `body.tools` field: present only when the tool list is
non-empty (`options.tools && options.tools.length > 0`). -/
def buildToolsField (conv : JSVal → Option JSVal)
    (tools : Option (List ToolDef)) : Option (List WireTool) :=
  match tools with
  | some ts => if ts.length > 0 then some (ts.map (mapTool conv)) else none
  | none => none

/-!
## Message translator (`convert-to-helicone-prompt.ts`)

`convertToHeliconePrompt` turns the vendor-neutral conversation into the
gateway's flat message array.  `JSON.stringify` is passed in as `strfy`,
the base64 encoding of binary file payloads as `b64`.  Thrown `Error`s are
modelled by `Except.error` carrying the error message. -/

/-- The payload of a file part: a `URL` reference, an already-string
(base64) payload, or binary bytes (base64-encoded via `Buffer`). -/
inductive FileData where
  | url (u : String)
  | strData (s : String)
  | bytes (bs : List Nat)

/-- An item of a structured `content`-typed tool output. -/
inductive ContentItem where
  | text (t : String)
  | media (mediaType : String)
  | otherItem

/-- A tool-result part's `output` field. -/
inductive ToolOutput where
  | text (v : String)
  | errorText (v : String)
  | json (v : JSVal)
  | errorJson (v : JSVal)
  | content (items : List ContentItem)
  | otherOutput (v : JSVal)

/-- A typed part of a conversation turn. -/
inductive Part where
  | text (t : String)
  | reasoning (t : String)
  | toolCall (toolCallId toolName : String) (input : JSVal)
      (thoughtSignature : Option String)
  | file (data : FileData) (mediaType : Option String)
  | toolResult (toolCallId toolName : String) (output : ToolOutput)

/-- The runtime `part.type` tag, as interpolated into error messages. -/
def Part.typeName : Part → String
  | .text _ => "text"
  | .reasoning _ => "reasoning"
  | .toolCall .. => "tool-call"
  | .file .. => "file"
  | .toolResult .. => "tool-result"

/-- A conversation turn.  `unknownRole` models a runtime value whose role
tag matches no `case`, handled by the translator's `default` branch. -/
inductive LMMessage where
  | system (content : String)
  | user (parts : List Part)
  | assistant (parts : List Part)
  | tool (parts : List Part)
  | unknownRole (role : String)

/-- An entry of a user message's `content` array on the wire. -/
inductive UserEntry where
  | text (t : String)
  | imageUrl (url : String)
deriving DecidableEq

/-- A `tool_calls` entry on an outbound assistant message
(`thoughtSignature` models `extra_content.google.thought_signature`). -/
structure WireToolCall where
  id : String
  name : String
  arguments : String
  thoughtSignature : Option String
deriving DecidableEq

/-- A wire message's `content`: either a plain string or an entry array. -/
inductive WireContent where
  | str (s : String)
  | parts (entries : List UserEntry)
deriving DecidableEq

/-- A single outbound chat message. -/
structure WireMessage where
  role : String
  content : Option WireContent
  tool_calls : Option (List WireToolCall)
  tool_call_id : Option String
  name : Option String
deriving DecidableEq

/-- The user-branch `switch` over one part: text and file parts convert,
anything else throws naming the part type. -/
def convertUserPart (b64 : List Nat → String) : Part → Except String UserEntry
  | .text t => .ok (.text t)
  | .file d mt =>
    match d with
    | .url u => .ok (.imageUrl u)
    | .strData s =>
        .ok (.imageUrl ("data:" ++ jsOrD mt "image/jpeg" ++ ";base64," ++ s))
    | .bytes bs =>
        .ok (.imageUrl ("data:" ++ jsOrD mt "image/jpeg" ++ ";base64," ++ b64 bs))
  | p => .error ("Unsupported content type: " ++ p.typeName)

/-- The assistant-branch `switch` over one part: text and reasoning
contribute their text, tool-call parts (handled separately) and any other
part type contribute `''`. -/
def assistantPartText : Part → String
  | .text t => t
  | .reasoning t => t
  | _ => ""

/-- Whether a part is a tool-call part. -/
def isToolCallPart : Part → Bool
  | .toolCall .. => true
  | _ => false

/-- An assistant tool-call part as a wire `tool_calls` entry (only applied
to tool-call parts). -/
def toolCallToWire (strfy : JSVal → String) : Part → WireToolCall
  | .toolCall id name input th => ⟨id, name, strfy input, th⟩
  | _ => ⟨"", "", "", none⟩

/-- Rendering of one structured-content item (text verbatim, media as a
bracketed placeholder, anything else as `''`). -/
def contentItemText : ContentItem → String
  | .text t => t
  | .media mt => "[Media: " ++ mt ++ "]"
  | .otherItem => ""

/-- The stringified `content` of an outbound tool message. -/
def toolOutputContent (strfy : JSVal → String) : ToolOutput → String
  | .text v => v
  | .errorText v => v
  | .json v => strfy v
  | .errorJson v => strfy v
  | .content items => String.join (items.map contentItemText)
  | .otherOutput v => strfy v

/-- The tool-branch fan-out: one wire message per tool-result part, a throw
naming the part type at the first part that is not a tool result. -/
def convertToolTurn (strfy : JSVal → String) :
    List Part → Except String (List WireMessage)
  | [] => .ok []
  | .toolResult id name output :: rest =>
    match convertToolTurn strfy rest with
    | .error e => .error e
    | .ok ms =>
        .ok (⟨"tool", some (.str (toolOutputContent strfy output)), none,
              some id, some name⟩ :: ms)
  | p :: _ => .error ("Unsupported tool content type: " ++ p.typeName)

/-- Translation of one conversation turn into its wire messages
(`convert-to-helicone-prompt.ts`, lines 23–149). -/
def convertMessage (strfy : JSVal → String) (b64 : List Nat → String) :
    LMMessage → Except String (List WireMessage)
  | .system c => .ok [⟨"system", some (.str c), none, none, none⟩]
  | .user parts =>
    match parts.mapM (convertUserPart b64) with
    | .error e => .error e
    | .ok entries => .ok [⟨"user", some (.parts entries), none, none, none⟩]
  | .assistant parts =>
    let contentStr :=
      String.join ((parts.map assistantPartText).filter (fun s => s != ""))
    let content : Option WireContent :=
      if contentStr = "" then none else some (.str contentStr)
    let tcs := (parts.filter isToolCallPart).map (toolCallToWire strfy)
    let toolCallsField := if tcs.length > 0 then some tcs else none
    .ok [⟨"assistant", content, toolCallsField, none, none⟩]
  | .tool parts => convertToolTurn strfy parts
  | .unknownRole r => .error ("Unsupported message role: " ++ r)

/-- The full translator: converts turns in order, throwing at the first
unsupported turn. -/
def convertToHeliconePrompt (strfy : JSVal → String) (b64 : List Nat → String) :
    List LMMessage → Except String (List WireMessage)
  | [] => .ok []
  | m :: rest =>
    match convertMessage strfy b64 m with
    | .error e => .error e
    | .ok ms =>
      match convertToHeliconePrompt strfy b64 rest with
      | .error e => .error e
      | .ok ms' => .ok (ms ++ ms')

/-!
## Streaming state machine (`doStream`, position-keyed variant)

Embedding of the `ReadableStream` loop of the defensive `doStream`
implementation (the array-indexed variant; design notes mark it as the
authoritative streaming contract).  The transport is modelled as a list of
already-framed `data:` payloads; `JSON.parse` of argument buffers is the
parameter `parse`. -/

/-- One `delta.tool_calls[i]` fragment: position index, optional id, and
the flattened optionals `function?.name` / `function?.arguments`. -/
structure Frag where
  index : Nat
  id : Option String
  fname : Option String
  fargs : Option String
deriving DecidableEq

/-- A streaming tool-call accumulator (`toolCalls[i]` entry): id as first
seen (possibly still absent), name (`function?.name || ''`), accumulated
raw argument text, and the `inputStarted` / `sent` booleans. -/
structure ToolAcc where
  id : Option String
  name : String
  args : String
  inputStarted : Bool
  sent : Bool
deriving DecidableEq

/-- A frame's `choices[0].delta`. -/
structure SDelta where
  content : Option String
  tool_calls : Option (List Frag)
deriving DecidableEq

/-- A frame's `choices[0]`. -/
structure SChoice where
  finish_reason : Option String
  delta : Option SDelta
deriving DecidableEq

/-- A parsed streaming frame: `choice` models `parsed.choices?.[0]`
(`none` when `choices` is absent or empty), `usage` the optional usage
snapshot. -/
structure SFrame where
  choice : Option SChoice
  usage : Option UsageSnap
deriving DecidableEq

/-- One received `data:` line: either a payload whose `JSON.parse`
succeeded, or a skipped line (`[DONE]`, non-`data:` lines, malformed
JSON). -/
inductive Item where
  | malformed
  | frame (f : SFrame)
deriving DecidableEq

/-- A typed stream event enqueued on the processed stream. -/
inductive Event where
  | textDelta (id : String) (delta : String)
  | toolInputStart (id toolName : String)
  | toolInputDelta (id : String) (delta : String)
  | toolInputEnd (id : String)
  | toolCallEvt (toolCallId toolName : String) (input : JSVal)
  | finish (usage : Usage) (finishReason : String)

/-- The call-scoped mutable state of the stream loop. -/
structure StState where
  usage : Usage
  finishReason : String
  toolCalls : List (Option ToolAcc)

/-- Initial state: zero usage, default finish reason `'stop'`, no
accumulators. -/
def initState : StState := ⟨⟨0, 0, 0⟩, "stop", []⟩

/-- Usage snapshot conversion (`parsed.usage.prompt_tokens || 0`, etc.). -/
def cvtUsage (u : UsageSnap) : Usage :=
  ⟨u.prompt_tokens.getD 0, u.completion_tokens.getD 0, u.total_tokens.getD 0⟩

/-- Array access `toolCalls[i]`: `undefined` out of range, possibly a `null`
slot. -/
def slotAt (tcs : List (Option ToolAcc)) (i : Nat) : Option ToolAcc :=
  (tcs.get? i).join

/-- Pad `toolCalls` with `null` up to `i` and assign index `i` (the
`while (toolCalls.length <= index) push(null)` loop plus the store). -/
def padSet (tcs : List (Option ToolAcc)) (i : Nat) (a : ToolAcc) :
    List (Option ToolAcc) :=
  (tcs ++ List.replicate (i + 1 - tcs.length) none).set i (some a)

/-- Finalization of one accumulator on a terminal finish frame
(lines 324–343 of the source): an accumulator that has started input but
was never sent gets one `tool-call` event — with arguments re-parsed, `{}`
on parse failure or empty buffer — and is marked sent.  Note no
`tool-input-end` is emitted on this path. -/
def finalizeAcc (parse : String → Option JSVal) (a : ToolAcc) :
    ToolAcc × List Event :=
  if !a.sent && a.inputStarted then
    let input := if a.args = "" then JSVal.obj [] else (parse a.args).getD (.obj [])
    ({ a with sent := true }, [.toolCallEvt (a.id.getD "") a.name input])
  else (a, [])

/-- The `for (const toolCall of toolCalls)` finalization loop run when a
frame carries a truthy `finish_reason`. -/
def finalizeOnFinish (parse : String → Option JSVal) :
    List (Option ToolAcc) → List (Option ToolAcc) × List Event
  | [] => ([], [])
  | none :: rest =>
    let (r, e) := finalizeOnFinish parse rest
    (none :: r, e)
  | some a :: rest =>
    let (a', ea) := finalizeAcc parse a
    let (r, e) := finalizeOnFinish parse rest
    (some a' :: r, ea ++ e)

/-- Event emission for a freshly created accumulator whose id and name are
both available (lines 387–455): `tool-input-start`, then — depending on the
fragment's arguments — immediate completion (`undefined` or `''`
arguments), or a `tool-input-delta` followed by early completion when the
accumulated buffer already parses as JSON. -/
def newAccEvents (parse : String → Option JSVal) (acc : ToolAcc)
    (fargs : Option String) : ToolAcc × List Event :=
  let idS := acc.id.getD ""
  match fargs with
  | none =>
    ({ acc with inputStarted := true, sent := true },
     [.toolInputStart idS acc.name, .toolInputEnd idS,
      .toolCallEvt idS acc.name (.obj [])])
  | some aStr =>
    if aStr = "" then
      ({ acc with inputStarted := true, sent := true },
       [.toolInputStart idS acc.name, .toolInputEnd idS,
        .toolCallEvt idS acc.name (.obj [])])
    else
      match parse acc.args with
      | some v =>
        ({ acc with inputStarted := true, sent := true },
         [.toolInputStart idS acc.name, .toolInputDelta idS aStr,
          .toolInputEnd idS, .toolCallEvt idS acc.name v])
      | none =>
        ({ acc with inputStarted := true },
         [.toolInputStart idS acc.name, .toolInputDelta idS aStr])

/-- Id fill-in for an existing accumulator
(`if (toolCall.id && !existingCall.id)`). -/
def updAccId (fr : Frag) (a0 : ToolAcc) : ToolAcc :=
  if oTruthy fr.id && !(oTruthy a0.id) then { a0 with id := fr.id } else a0

/-- Name fill-in for an existing accumulator, announcing `tool-input-start`
when the id is already known and input has not started
(`if (toolCall.function?.name && !existingCall.function.name)`). -/
def updAccName (fr : Frag) (a1 : ToolAcc) : ToolAcc × List Event :=
  if oTruthy fr.fname && (a1.name == "") then
    let a2 := { a1 with name := fr.fname.getD "" }
    if oTruthy a2.id && !a2.inputStarted then
      ({ a2 with inputStarted := true },
       [Event.toolInputStart (a2.id.getD "") a2.name])
    else (a2, ([] : List Event))
  else (a1, ([] : List Event))

/-- Argument accumulation for an existing accumulator: append truthy
argument text, and — when announced and not yet sent — emit the delta and
attempt early completion by parsing the whole buffer
(`if (toolCall.function?.arguments)`). -/
def updAccArgs (parse : String → Option JSVal) (fr : Frag) (a2 : ToolAcc) :
    ToolAcc × List Event :=
  if oTruthy fr.fargs then
    let frA := fr.fargs.getD ""
    let a3 := { a2 with args := a2.args ++ frA }
    if oTruthy a3.id && a3.inputStarted && !a3.sent then
      let parsedRes := if a3.args = "" then some (JSVal.obj []) else parse a3.args
      match parsedRes with
      | some v =>
        ({ a3 with sent := true },
         [Event.toolInputDelta (a3.id.getD "") frA,
          Event.toolInputEnd (a3.id.getD ""),
          Event.toolCallEvt (a3.id.getD "") a3.name v])
      | none => (a3, [Event.toolInputDelta (a3.id.getD "") frA])
    else (a3, ([] : List Event))
  else (a2, ([] : List Event))

/-- Processing of one `delta.tool_calls` fragment (lines 363–512): resolve
or create the accumulator at the fragment's position, fill in id/name,
announce when both are known, accumulate truthy argument text, emit the
delta and attempt early completion — all guarded so that a `sent`
accumulator emits nothing further. -/
def processFrag (parse : String → Option JSVal) (tcs : List (Option ToolAcc))
    (fr : Frag) : List (Option ToolAcc) × List Event :=
  match slotAt tcs fr.index with
  | none =>
    let acc0 : ToolAcc :=
      { id := fr.id, name := jsOrD fr.fname "", args := jsOrD fr.fargs "",
        inputStarted := false, sent := false }
    if oTruthy acc0.id && !(acc0.name == "") then
      let r := newAccEvents parse acc0 fr.fargs
      (padSet tcs fr.index r.1, r.2)
    else
      (padSet tcs fr.index acc0, [])
  | some a0 =>
    let na := updAccName fr (updAccId fr a0)
    let ra := updAccArgs parse fr na.1
    (tcs.set fr.index (some ra.1), na.2 ++ ra.2)

/-- The `for (const toolCall of delta.tool_calls)` loop. -/
def processFrags (parse : String → Option JSVal) (tcs : List (Option ToolAcc)) :
    List Frag → List (Option ToolAcc) × List Event
  | [] => (tcs, [])
  | fr :: rest =>
    let s1 := processFrag parse tcs fr
    let s2 := processFrags parse s1.1 rest
    (s2.1, s1.2 ++ s2.2)

/-- The finish-reason handling at the top of a frame (lines 322–347): on a
truthy `finish_reason`, run the finalization loop and store the mapped
reason. -/
def finishStep (parse : String → Option JSVal) (s : StState) (ch : SChoice) :
    List (Option ToolAcc) × List Event × String :=
  if oTruthy ch.finish_reason then
    let r := finalizeOnFinish parse s.toolCalls
    (r.1, r.2, mapHeliconeFinishReason ch.finish_reason)
  else (s.toolCalls, ([] : List Event), s.finishReason)

/-- Processing of one frame with a first choice (lines 322–520): finish
handling (finalize and store the mapped reason), then — only when the
choice has a truthy `delta` — text delta, tool-call fragments, and the
usage-snapshot overwrite. -/
def processChoice (parse : String → Option JSVal) (s : StState)
    (usage? : Option UsageSnap) (ch : SChoice) : StState × List Event :=
  let fin := finishStep parse s ch
  match ch.delta with
  | none => ({ s with toolCalls := fin.1, finishReason := fin.2.2 }, fin.2.1)
  | some d =>
    let evs2 := if oTruthy d.content then
                  [Event.textDelta "text-0" (d.content.getD "")]
                else ([] : List Event)
    let tf := match d.tool_calls with
              | some l => processFrags parse fin.1 l
              | none => (fin.1, ([] : List Event))
    let u' := match usage? with
              | some u => cvtUsage u
              | none => s.usage
    (⟨u', fin.2.2, tf.1⟩, fin.2.1 ++ evs2 ++ tf.2)

/-- Processing of one received line: frames with no usable first choice and
skipped lines change nothing. -/
def processItem (parse : String → Option JSVal) (s : StState) :
    Item → StState × List Event
  | .malformed => (s, [])
  | .frame f =>
    match f.choice with
    | none => (s, [])
    | some ch => processChoice parse s f.usage ch

/-- The reader loop over all remaining items, threading state and
concatenating emitted events. -/
def runItems (parse : String → Option JSVal) (s : StState) :
    List Item → StState × List Event
  | [] => (s, [])
  | it :: rest =>
    let r1 := processItem parse s it
    let r2 := runItems parse r1.1 rest
    (r2.1, r1.2 ++ r2.2)

/-- The full event sequence of a consumed stream: the events of every
frame, then — when the transport reports `done` — a single `finish` event
carrying the running usage and finish reason (lines 292–300; note this
variant finalizes no accumulators on the `done` path). -/
def doStreamEvents (parse : String → Option JSVal) (items : List Item) :
    List Event :=
  let r := runItems parse initState items
  r.2 ++ [Event.finish r.1.usage r.1.finishReason]

/-- Whether an event is a `finish` event. -/
def isFinishEvt : Event → Bool
  | .finish .. => true
  | _ => false

/-!
### `finish` is emitted exactly once, as the last event (C4)

Frame processing never enqueues a `finish`; the loop enqueues exactly one
when the transport reports `done`. -/

theorem finalizeAcc_no_finish (parse : String → Option JSVal) (a : ToolAcc) :
    ∀ e ∈ (finalizeAcc parse a).2, isFinishEvt e = false := by
  unfold finalizeAcc
  split <;> simp [isFinishEvt]

theorem finalizeOnFinish_no_finish (parse : String → Option JSVal)
    (tcs : List (Option ToolAcc)) :
    ∀ e ∈ (finalizeOnFinish parse tcs).2, isFinishEvt e = false := by
  induction tcs with
  | nil => simp [finalizeOnFinish]
  | cons hd rest ih =>
    cases hd with
    | none => simpa [finalizeOnFinish] using ih
    | some a =>
      intro e he
      simp only [finalizeOnFinish, List.mem_append] at he
      rcases he with he | he
      · exact finalizeAcc_no_finish parse a e he
      · exact ih e he

theorem newAccEvents_no_finish (parse : String → Option JSVal) (acc : ToolAcc)
    (fargs : Option String) :
    ∀ e ∈ (newAccEvents parse acc fargs).2, isFinishEvt e = false := by
  unfold newAccEvents
  cases fargs with
  | none => simp [isFinishEvt]
  | some aStr =>
    by_cases h : aStr = "" <;> simp only [h, if_true, if_false, reduceIte]
    · simp [isFinishEvt]
    · cases hp : parse acc.args <;> simp [isFinishEvt]

theorem updAccName_no_finish (fr : Frag) (a1 : ToolAcc) :
    ∀ e ∈ (updAccName fr a1).2, isFinishEvt e = false := by
  unfold updAccName
  dsimp only
  split
  · split <;> simp [isFinishEvt]
  · simp

theorem updAccArgs_no_finish (parse : String → Option JSVal) (fr : Frag)
    (a2 : ToolAcc) : ∀ e ∈ (updAccArgs parse fr a2).2, isFinishEvt e = false := by
  unfold updAccArgs
  dsimp only
  split
  · split
    · split <;> simp [isFinishEvt]
    · simp
  · simp

theorem processFrag_no_finish (parse : String → Option JSVal)
    (tcs : List (Option ToolAcc)) (fr : Frag) :
    ∀ e ∈ (processFrag parse tcs fr).2, isFinishEvt e = false := by
  unfold processFrag
  split
  · dsimp only
    split
    · exact fun e he => newAccEvents_no_finish parse _ _ e he
    · simp
  · intro e he
    simp only [List.mem_append] at he
    rcases he with he | he
    · exact updAccName_no_finish _ _ e he
    · exact updAccArgs_no_finish parse _ _ e he

theorem processFrags_no_finish (parse : String → Option JSVal)
    (tcs : List (Option ToolAcc)) (l : List Frag) :
    ∀ e ∈ (processFrags parse tcs l).2, isFinishEvt e = false := by
  induction l generalizing tcs with
  | nil => simp [processFrags]
  | cons fr rest ih =>
    intro e he
    simp only [processFrags, List.mem_append] at he
    rcases he with he | he
    · exact processFrag_no_finish parse tcs fr e he
    · exact ih _ e he

theorem finishStep_no_finish (parse : String → Option JSVal) (s : StState)
    (ch : SChoice) : ∀ e ∈ (finishStep parse s ch).2.1, isFinishEvt e = false := by
  unfold finishStep
  split
  · exact fun e he => finalizeOnFinish_no_finish parse _ e he
  · simp

theorem processChoice_no_finish (parse : String → Option JSVal) (s : StState)
    (usage? : Option UsageSnap) (ch : SChoice) :
    ∀ e ∈ (processChoice parse s usage? ch).2, isFinishEvt e = false := by
  unfold processChoice
  cases ch.delta with
  | none =>
    exact fun e he => finishStep_no_finish parse s ch e he
  | some d =>
    intro e he
    simp only [List.mem_append] at he
    rcases he with (he | he) | he
    · exact finishStep_no_finish parse s ch e he
    · revert he
      split
      · intro he
        simp only [List.mem_singleton] at he
        subst he
        rfl
      · simp
    · revert he
      split
      · exact fun he => processFrags_no_finish parse _ _ e he
      · simp

theorem processItem_no_finish (parse : String → Option JSVal) (s : StState)
    (it : Item) : ∀ e ∈ (processItem parse s it).2, isFinishEvt e = false := by
  cases it with
  | malformed => simp [processItem]
  | frame f =>
    cases hc : f.choice with
    | none => simp [processItem, hc]
    | some ch =>
      simpa [processItem, hc] using processChoice_no_finish parse s f.usage ch

theorem runItems_no_finish (parse : String → Option JSVal) (s : StState)
    (items : List Item) :
    ∀ e ∈ (runItems parse s items).2, isFinishEvt e = false := by
  induction items generalizing s with
  | nil => simp [runItems]
  | cons it rest ih =>
    intro e he
    simp only [runItems, List.mem_append] at he
    rcases he with he | he
    · exact processItem_no_finish parse s it e he
    · exact ih _ e he

end Helicone

namespace Helicone

/-- C4: for every consumed stream, a `finish` event is emitted exactly
once, and it is the last event of the event sequence. -/
theorem finish_exactly_once_and_last (parse : String → Option JSVal)
    (items : List Item) :
    (doStreamEvents parse items).countP isFinishEvt = 1 ∧
    ∃ u r, (doStreamEvents parse items).getLast? = some (.finish u r) := by
  unfold doStreamEvents
  constructor
  · rw [List.countP_append]
    have h0 : (runItems parse initState items).2.countP isFinishEvt = 0 := by
      rw [List.countP_eq_zero]
      intro e he
      simp [runItems_no_finish parse initState items e he]
    rw [h0]
    simp [isFinishEvt, List.countP_cons]
  · refine ⟨(runItems parse initState items).1.usage,
      (runItems parse initState items).1.finishReason, ?_⟩
    rw [List.getLast?_concat]

/-!
### Termination-time synthesis of open tool calls (C2)

The source's finish-signal path (lines 322–343) emits only a `tool-call`
for each started-but-unsent accumulator — no `tool-input-end` — and the
`done` path (lines 292–300) finalizes nothing at all, although the comment
at lines 510–511 promises finalization at stream completion and the
sibling implementation emits `tool-input-end` then `tool-call` on both
paths. -/

/-- A concrete `JSON.parse` knowing exactly the complete literal `[]`. -/
def parseSq : String → Option JSVal :=
  fun s => if s = "[]" then some (.arr []) else none

/-- A frame opening tool call `call_1` at position 0 with incomplete
argument text. -/
def openCallItem : Item :=
  .frame ⟨some ⟨none, some ⟨none, some [⟨0, some "call_1", some "f", some "[1,"⟩]⟩⟩,
          none⟩

/-- A terminal frame carrying `finish_reason:"stop"` and no delta. -/
def finishFrameItem : Item := .frame ⟨some ⟨some "stop", none⟩, none⟩

/-- Does the event list contain a `tool-input-end` for the given id? -/
def hasInputEndFor (id : String) (l : List Event) : Bool :=
  l.any fun e => match e with
                 | .toolInputEnd i => i == id
                 | _ => false

/-- Does the event list contain a `tool-call` for the given id? -/
def hasToolCallFor (id : String) (l : List Event) : Bool :=
  l.any fun e => match e with
                 | .toolCallEvt i _ _ => i == id
                 | _ => false

/-- C2 (failing input): a stream opens tool call `call_1` with argument
text that never parses, then terminates.  On the finish-signal path the
machine synthesizes a `tool-call` with *no* preceding `tool-input-end`;
on the transport end-of-stream path with no finish frame it synthesizes
nothing at all — no `tool-input-end` and no `tool-call` — contradicting
the claimed exactly-as-early-completion synthesis in both cases. -/
theorem stream_termination_synthesis_incomplete :
    doStreamEvents parseSq [openCallItem, finishFrameItem] =
      [.toolInputStart "call_1" "f", .toolInputDelta "call_1" "[1,",
       .toolCallEvt "call_1" "f" (.obj []), .finish ⟨0, 0, 0⟩ "stop"] ∧
    hasInputEndFor "call_1"
      (doStreamEvents parseSq [openCallItem, finishFrameItem]) = false ∧
    doStreamEvents parseSq [openCallItem] =
      [.toolInputStart "call_1" "f", .toolInputDelta "call_1" "[1,",
       .finish ⟨0, 0, 0⟩ "stop"] ∧
    hasInputEndFor "call_1" (doStreamEvents parseSq [openCallItem]) = false ∧
    hasToolCallFor "call_1" (doStreamEvents parseSq [openCallItem]) = false :=
  ⟨rfl, rfl, rfl, rfl, rfl⟩

/-!
### Usage accounting (C8)

The usage-snapshot overwrite (lines 516–520) sits after the
`if (!choice) continue` and `if (!delta) continue` guards: a snapshot is
applied only when its frame has a first choice with a truthy delta.  The
final usage is the last *applied* snapshot, not the last snapshot seen. -/

/-- The last usage snapshot carried by any frame of the stream ("the last
snapshot seen"). -/
def lastUsageSnapshot : List Item → Option UsageSnap
  | [] => none
  | it :: rest =>
    match lastUsageSnapshot rest with
    | some u => some u
    | none =>
      match it with
      | .frame f => f.usage
      | .malformed => none

/-- The usage snapshot an item actually applies: present only when the
frame has a first choice with a truthy delta. -/
def frameUsageUpdate : Item → Option UsageSnap
  | .frame f =>
    match f.choice with
    | some ch =>
      match ch.delta with
      | some _ => f.usage
      | none => none
    | none => none
  | .malformed => none

/-- The last snapshot the loop applies to the usage accumulator. -/
def lastAppliedSnapshot : List Item → Option UsageSnap
  | [] => none
  | it :: rest =>
    match lastAppliedSnapshot rest with
    | some u => some u
    | none => frameUsageUpdate it

theorem processItem_usage (parse : String → Option JSVal) (s : StState)
    (it : Item) :
    (processItem parse s it).1.usage =
      match frameUsageUpdate it with
      | some u => cvtUsage u
      | none => s.usage := by
  cases it with
  | malformed => rfl
  | frame f =>
    cases hc : f.choice with
    | none => simp [processItem, frameUsageUpdate, hc]
    | some ch =>
      cases hd : ch.delta with
      | none =>
        simp only [processItem, processChoice, frameUsageUpdate, hc, hd]
      | some d =>
        simp only [processItem, processChoice, frameUsageUpdate, hc, hd]

theorem runItems_usage (parse : String → Option JSVal) (s : StState)
    (items : List Item) :
    (runItems parse s items).1.usage =
      match lastAppliedSnapshot items with
      | some u => cvtUsage u
      | none => s.usage := by
  induction items generalizing s with
  | nil => rfl
  | cons it rest ih =>
    simp only [runItems, lastAppliedSnapshot]
    rw [ih]
    cases hr : lastAppliedSnapshot rest with
    | some u => rfl
    | none =>
      simp only []
      rw [processItem_usage]

end Helicone

namespace Helicone

/-- A frame with a text delta and the usage snapshot `(1, 2, 3)`. -/
def usageTextItem : Item :=
  .frame ⟨some ⟨none, some ⟨some "hi", none⟩⟩, some ⟨some 1, some 2, some 3⟩⟩

/-- A choiceless frame (e.g. a final usage-only chunk with `choices: []`)
carrying the usage snapshot `(7, 8, 15)`. -/
def usageOnlyItem : Item := .frame ⟨none, some ⟨some 7, some 8, some 15⟩⟩

/-- C8 counterexample: the last usage snapshot seen arrives on a frame with
no first choice; the finish event reports the earlier snapshot `(1, 2, 3)`,
not the last snapshot `(7, 8, 15)` — so the final usage does not equal the
last snapshot seen. -/
theorem usage_last_snapshot_counterexample :
    lastUsageSnapshot [usageTextItem, usageOnlyItem] =
      some ⟨some 7, some 8, some 15⟩ ∧
    doStreamEvents parseSq [usageTextItem, usageOnlyItem] =
      [.textDelta "text-0" "hi", .finish ⟨1, 2, 3⟩ "stop"] ∧
    cvtUsage ⟨some 7, some 8, some 15⟩ ≠ (⟨1, 2, 3⟩ : Usage) :=
  ⟨rfl, rfl, by decide⟩

/-- C8 as amended: each applied snapshot overwrites the usage accumulator
(never summed), and the usage in the final finish event equals the last
snapshot seen among frames that carry a first choice with a truthy delta;
snapshots on other frames are ignored. -/
theorem usage_equals_last_applied_snapshot (parse : String → Option JSVal)
    (items : List Item) (u : UsageSnap)
    (h : lastAppliedSnapshot items = some u) :
    (doStreamEvents parse items).getLast? =
      some (.finish (cvtUsage u) (runItems parse initState items).1.finishReason) := by
  unfold doStreamEvents
  rw [List.getLast?_concat, runItems_usage, h]

/-- Witness for the amended C8 at a concrete stream: the snapshot on the
text frame is applied, the one on the choiceless frame is not. -/
theorem usage_equals_last_applied_snapshot_witness :
    lastAppliedSnapshot [usageTextItem, usageOnlyItem] =
      some ⟨some 1, some 2, some 3⟩ ∧
    (doStreamEvents parseSq [usageTextItem, usageOnlyItem]).getLast? =
      some (.finish (cvtUsage ⟨some 1, some 2, some 3⟩)
        (runItems parseSq initState [usageTextItem, usageOnlyItem]).1.finishReason) :=
  ⟨rfl, usage_equals_last_applied_snapshot parseSq [usageTextItem, usageOnlyItem]
    ⟨some 1, some 2, some 3⟩ rfl⟩

/-!
### Per-call event attribution (C1, C3)

Tool events carry the id string of their accumulator.  To attribute events
to a position we track two invariants over the accumulator array: "no
accumulator carries id `i`" (before the call at position `p` with id `i` is
created) and "the accumulator at `p` carries id `i`, is finalized, and no
other accumulator carries id `i`" (afterwards). -/

/-- The id carried by a tool-typed event (`text-delta` and `finish` carry
none). -/
def evtToolId : Event → Option String
  | .toolInputStart i _ => some i
  | .toolInputDelta i _ => some i
  | .toolInputEnd i => some i
  | .toolCallEvt i _ _ => some i
  | _ => none

/-- No event of the list is a tool event with id `i`. -/
def noToolEvtFor (i : String) (l : List Event) : Prop :=
  ∀ e ∈ l, evtToolId e ≠ some i

/-- The slot does not hold an accumulator with id `i`. -/
def accNotIdB (i : String) : Option ToolAcc → Bool
  | none => true
  | some a => !(a.id == some i)

/-- No accumulator of the array carries id `i`. -/
def tcsNoIdB (i : String) (tcs : List (Option ToolAcc)) : Bool :=
  tcs.all (accNotIdB i)

/-- Every accumulator except the one at `p` avoids id `i`. -/
def othersNoId (i : String) (p : Nat) (tcs : List (Option ToolAcc)) : Prop :=
  ∀ q, q ≠ p → accNotIdB i (slotAt tcs q) = true

/-- The accumulator at `p` carries id `i`, has announced input, has a
non-empty name, and is finalized. -/
def sentInvAt (i : String) (p : Nat) (tcs : List (Option ToolAcc)) : Prop :=
  ∃ a, slotAt tcs p = some a ∧ a.sent = true ∧ a.inputStarted = true ∧
    a.id = some i ∧ a.name ≠ ""

/-- Combined invariant after the call at `p` (carrying id `i`) finalizes. -/
def streamInv (i : String) (p : Nat) (tcs : List (Option ToolAcc)) : Prop :=
  sentInvAt i p tcs ∧ othersNoId i p tcs

/-- The fragment does not carry id `i`. -/
def fragNotIdB (i : String) (fr : Frag) : Bool := !(fr.id == some i)

/-- The tool-call fragments carried by an item. -/
def itemFrags : Item → List Frag
  | .frame f =>
    match f.choice with
    | some ch =>
      match ch.delta with
      | some d => d.tool_calls.getD []
      | none => []
    | none => []
  | .malformed => []

/-- No fragment of the item carries id `i`. -/
def itemNoFragIdB (i : String) (it : Item) : Bool :=
  (itemFrags it).all (fragNotIdB i)

/-- No fragment of the item addresses position `p`. -/
def itemNoFragAtB (p : Nat) (it : Item) : Bool :=
  (itemFrags it).all (fun fr => !(fr.index == p))

/-- Every fragment of the item carrying id `i` addresses position `p`. -/
def itemFragsOkB (i : String) (p : Nat) (it : Item) : Bool :=
  (itemFrags it).all (fun fr => (fr.index == p) || fragNotIdB i fr)

theorem slotAt_padSet_self (tcs : List (Option ToolAcc)) (p : Nat) (a : ToolAcc) :
    slotAt (padSet tcs p a) p = some a := by
  unfold slotAt padSet
  have hlen : p < (tcs ++ List.replicate (p + 1 - tcs.length) none).length := by
    simp only [List.length_append, List.length_replicate]
    omega
  rw [List.get?_set_eq_of_lt _ hlen]
  rfl

theorem slotAt_padSet_ne (tcs : List (Option ToolAcc)) (p q : Nat) (a : ToolAcc)
    (h : q ≠ p) : slotAt (padSet tcs p a) q = slotAt tcs q := by
  unfold slotAt padSet
  rw [List.get?_set_ne _ _ (fun hh => h hh.symm)]
  by_cases hq : q < tcs.length
  · rw [List.get?_append hq]
  · have hr : tcs.get? q = none := List.get?_eq_none.2 (by omega)
    rw [List.get?_append_right (by omega), hr]
    cases hg : (List.replicate (p + 1 - tcs.length) (none : Option ToolAcc)).get?
        (q - tcs.length) with
    | none => rfl
    | some o =>
      have ho : o = none := List.eq_of_mem_replicate (List.get?_mem hg)
      subst ho
      rfl

theorem slotAt_set_self (tcs : List (Option ToolAcc)) (p : Nat) (o : Option ToolAcc)
    (h : p < tcs.length) : slotAt (tcs.set p o) p = o.join := by
  unfold slotAt
  rw [List.get?_set_eq_of_lt _ h]
  cases o <;> rfl

theorem slotAt_set_ne (tcs : List (Option ToolAcc)) (p q : Nat) (o : Option ToolAcc)
    (h : q ≠ p) : slotAt (tcs.set p o) q = slotAt tcs q := by
  unfold slotAt
  rw [List.get?_set_ne _ _ (fun hh => h hh.symm)]

theorem slotAt_set_some (tcs : List (Option ToolAcc)) (p : Nat) (a : ToolAcc)
    (h : p < tcs.length) : slotAt (tcs.set p (some a)) p = some a := by
  rw [slotAt_set_self _ _ _ h]
  rfl

theorem getD_ne_of_ne {x : Option String} {i : String} (hi : i ≠ "")
    (hx : x ≠ some i) : x.getD "" ≠ i := by
  cases x with
  | none => simpa using fun h => hi h.symm
  | some j => simpa using fun h => hx (by rw [h])

theorem tcsNoIdB_mem {i : String} {tcs : List (Option ToolAcc)}
    (h : tcsNoIdB i tcs = true) {a : ToolAcc} (ha : some a ∈ tcs) :
    a.id ≠ some i := by
  have := List.all_eq_true.1 h _ ha
  simpa [accNotIdB] using this

theorem tcsNoIdB_set {i : String} {tcs : List (Option ToolAcc)}
    (h : tcsNoIdB i tcs = true) {o : Option ToolAcc}
    (ho : accNotIdB i o = true) (n : Nat) : tcsNoIdB i (tcs.set n o) = true := by
  apply List.all_eq_true.2
  intro x hx
  rcases List.mem_or_eq_of_mem_set hx with hx | rfl
  · exact List.all_eq_true.1 h _ hx
  · exact ho

theorem tcsNoIdB_padSet {i : String} {tcs : List (Option ToolAcc)}
    (h : tcsNoIdB i tcs = true) {a : ToolAcc}
    (ha : accNotIdB i (some a) = true) (n : Nat) :
    tcsNoIdB i (padSet tcs n a) = true := by
  unfold padSet
  apply tcsNoIdB_set _ ha
  apply List.all_eq_true.2
  intro x hx
  rcases List.mem_append.1 hx with hx | hx
  · exact List.all_eq_true.1 h _ hx
  · rw [List.eq_of_mem_replicate hx]
    rfl

theorem updAccId_id (fr : Frag) (a0 : ToolAcc) :
    (updAccId fr a0).id = a0.id ∨ (updAccId fr a0).id = fr.id := by
  unfold updAccId
  split
  · exact Or.inr rfl
  · exact Or.inl rfl

theorem updAccId_of_truthy (fr : Frag) (a0 : ToolAcc)
    (h : oTruthy a0.id = true) : updAccId fr a0 = a0 := by
  unfold updAccId
  simp [h]

theorem updAccName_id (fr : Frag) (a1 : ToolAcc) :
    (updAccName fr a1).1.id = a1.id := by
  unfold updAccName
  dsimp only
  split
  · split <;> rfl
  · rfl

theorem updAccName_evt_id (fr : Frag) (a1 : ToolAcc) :
    ∀ e ∈ (updAccName fr a1).2, evtToolId e = some (a1.id.getD "") := by
  unfold updAccName
  dsimp only
  split
  · split <;> simp [evtToolId]
  · simp

theorem updAccName_of_named (fr : Frag) (a1 : ToolAcc) (h : a1.name ≠ "") :
    updAccName fr a1 = (a1, []) := by
  unfold updAccName
  simp [h]

theorem updAccArgs_id (parse : String → Option JSVal) (fr : Frag) (a2 : ToolAcc) :
    (updAccArgs parse fr a2).1.id = a2.id := by
  unfold updAccArgs
  dsimp only
  split
  · split
    · split <;> rfl
    · rfl
  · rfl

theorem updAccArgs_evt_id (parse : String → Option JSVal) (fr : Frag)
    (a2 : ToolAcc) :
    ∀ e ∈ (updAccArgs parse fr a2).2, evtToolId e = some (a2.id.getD "") := by
  unfold updAccArgs
  dsimp only
  split
  · split
    · split <;> simp [evtToolId]
    · simp
  · simp

theorem updAccArgs_of_sent (parse : String → Option JSVal) (fr : Frag)
    (a2 : ToolAcc) (h : a2.sent = true) :
    (updAccArgs parse fr a2).1.sent = true ∧
    (updAccArgs parse fr a2).1.inputStarted = a2.inputStarted ∧
    (updAccArgs parse fr a2).1.id = a2.id ∧
    (updAccArgs parse fr a2).1.name = a2.name ∧
    (updAccArgs parse fr a2).2 = [] := by
  unfold updAccArgs
  dsimp only
  split
  · rw [if_neg (by simp [h])]
    exact ⟨h, rfl, rfl, rfl, rfl⟩
  · exact ⟨h, rfl, rfl, rfl, rfl⟩

theorem newAccEvents_id (parse : String → Option JSVal) (acc : ToolAcc)
    (fargs : Option String) : (newAccEvents parse acc fargs).1.id = acc.id := by
  unfold newAccEvents
  dsimp only
  split
  · rfl
  · split
    · rfl
    · split <;> rfl

theorem newAccEvents_evt_id (parse : String → Option JSVal) (acc : ToolAcc)
    (fargs : Option String) :
    ∀ e ∈ (newAccEvents parse acc fargs).2,
      evtToolId e = some (acc.id.getD "") := by
  unfold newAccEvents
  dsimp only
  split
  · simp [evtToolId]
  · split
    · simp [evtToolId]
    · split <;> simp [evtToolId]

theorem finalizeAcc_id (parse : String → Option JSVal) (a : ToolAcc) :
    (finalizeAcc parse a).1.id = a.id := by
  unfold finalizeAcc
  split <;> rfl

theorem finalizeAcc_of_sent (parse : String → Option JSVal) (a : ToolAcc)
    (h : a.sent = true) : finalizeAcc parse a = (a, []) := by
  unfold finalizeAcc
  simp [h]

theorem finalizeAcc_evt (parse : String → Option JSVal) (a : ToolAcc) :
    ∀ e ∈ (finalizeAcc parse a).2,
      a.sent = false ∧ evtToolId e = some (a.id.getD "") := by
  unfold finalizeAcc
  split
  · rename_i hg
    intro e he
    simp only [List.mem_singleton] at he
    subst he
    refine ⟨?_, rfl⟩
    revert hg
    cases a.sent <;> simp
  · simp

theorem finalizeOnFinish_slot (parse : String → Option JSVal)
    (tcs : List (Option ToolAcc)) (q : Nat) :
    slotAt (finalizeOnFinish parse tcs).1 q =
      (slotAt tcs q).map (fun a => (finalizeAcc parse a).1) := by
  induction tcs generalizing q with
  | nil => cases q <;> rfl
  | cons hd rest ih =>
    cases hd with
    | none =>
      cases q with
      | zero => rfl
      | succ n => simpa [finalizeOnFinish, slotAt] using ih n
    | some a =>
      cases q with
      | zero => rfl
      | succ n => simpa [finalizeOnFinish, slotAt] using ih n

theorem finalizeOnFinish_evt (parse : String → Option JSVal)
    (tcs : List (Option ToolAcc)) :
    ∀ e ∈ (finalizeOnFinish parse tcs).2,
      ∃ a, some a ∈ tcs ∧ a.sent = false ∧
        evtToolId e = some (a.id.getD "") := by
  induction tcs with
  | nil => simp [finalizeOnFinish]
  | cons hd rest ih =>
    cases hd with
    | none =>
      intro e he
      simp only [finalizeOnFinish] at he
      rcases ih e he with ⟨a, ha, hs, hid⟩
      exact ⟨a, List.mem_cons_of_mem _ ha, hs, hid⟩
    | some a0 =>
      intro e he
      simp only [finalizeOnFinish, List.mem_append] at he
      rcases he with he | he
      · rcases finalizeAcc_evt parse a0 e he with ⟨hs, hid⟩
        exact ⟨a0, List.mem_cons_self _ _, hs, hid⟩
      · rcases ih e he with ⟨a, ha, hs, hid⟩
        exact ⟨a, List.mem_cons_of_mem _ ha, hs, hid⟩

/-- Membership form of the accumulator array: each held accumulator sits at
some position. -/
theorem mem_slotAt {tcs : List (Option ToolAcc)} {a : ToolAcc}
    (h : some a ∈ tcs) : ∃ q, slotAt tcs q = some a := by
  rcases List.mem_iff_get?.1 h with ⟨n, hn⟩
  refine ⟨n, ?_⟩
  unfold slotAt
  rw [hn]
  rfl

theorem finalizeOnFinish_noid (parse : String → Option JSVal) {i : String}
    {tcs : List (Option ToolAcc)} (hi : i ≠ "") (h : tcsNoIdB i tcs = true) :
    tcsNoIdB i (finalizeOnFinish parse tcs).1 = true ∧
    noToolEvtFor i (finalizeOnFinish parse tcs).2 := by
  constructor
  · induction tcs with
    | nil => rfl
    | cons hd rest ih =>
      have hhd := List.all_eq_true.1 h _ (List.mem_cons_self hd rest)
      have hrest : tcsNoIdB i rest = true :=
        List.all_eq_true.2 fun x hx => List.all_eq_true.1 h _ (.tail _ hx)
      cases hd with
      | none =>
        simp only [finalizeOnFinish, tcsNoIdB, List.all_cons, Bool.and_eq_true]
        exact ⟨rfl, List.all_eq_true.2 fun x hx =>
          List.all_eq_true.1 (ih hrest) _ hx⟩
      | some a =>
        simp only [finalizeOnFinish, tcsNoIdB, List.all_cons, Bool.and_eq_true]
        refine ⟨?_, List.all_eq_true.2 fun x hx =>
          List.all_eq_true.1 (ih hrest) _ hx⟩
        simp only [accNotIdB, finalizeAcc_id]
        simpa [accNotIdB] using hhd
  · intro e he
    rcases finalizeOnFinish_evt parse tcs e he with ⟨a, ha, _, hid⟩
    rw [hid]
    intro hc
    exact getD_ne_of_ne hi (tcsNoIdB_mem h ha) (Option.some.inj hc)

theorem finalizeOnFinish_inv (parse : String → Option JSVal) {i : String}
    {p : Nat} {tcs : List (Option ToolAcc)} (hi : i ≠ "")
    (hinv : streamInv i p tcs) :
    streamInv i p (finalizeOnFinish parse tcs).1 ∧
    noToolEvtFor i (finalizeOnFinish parse tcs).2 := by
  obtain ⟨⟨a, hap, hsent, hstart, hid, hname⟩, hoth⟩ := hinv
  refine ⟨⟨⟨a, ?_, hsent, hstart, hid, hname⟩, ?_⟩, ?_⟩
  · rw [finalizeOnFinish_slot, hap]
    simp [finalizeAcc_of_sent parse a hsent]
  · intro q hq
    rw [finalizeOnFinish_slot]
    have := hoth q hq
    cases hq' : slotAt tcs q with
    | none => rfl
    | some b =>
      rw [hq'] at this
      simpa [accNotIdB, finalizeAcc_id] using this
  · intro e he
    rcases finalizeOnFinish_evt parse tcs e he with ⟨b, hb, hbs, hbid⟩
    rcases mem_slotAt hb with ⟨q, hq⟩
    rw [hbid]
    intro hc
    have hbq : b.id ≠ some i := by
      by_cases hqp : q = p
      · subst hqp
        rw [hq] at hap
        cases hap
        rw [hsent] at hbs
        exact absurd hbs (by simp)
      · have := hoth q hqp
        rw [hq] at this
        simpa [accNotIdB] using this
    exact getD_ne_of_ne hi hbq (Option.some.inj hc)

theorem slotAt_mem {tcs : List (Option ToolAcc)} {q : Nat} {a : ToolAcc}
    (h : slotAt tcs q = some a) : some a ∈ tcs := by
  unfold slotAt at h
  cases hg : tcs.get? q with
  | none => rw [hg] at h; cases h
  | some o =>
    rw [hg] at h
    cases o with
    | none => cases h
    | some b =>
      cases h
      exact List.get?_mem hg

theorem slotAt_isSome_lt {tcs : List (Option ToolAcc)} {q : Nat} {a : ToolAcc}
    (h : slotAt tcs q = some a) : q < tcs.length := by
  unfold slotAt at h
  cases hg : tcs.get? q with
  | none => rw [hg] at h; cases h
  | some o => exact (List.get?_eq_some.1 hg).choose

theorem processFrag_slot_ne (parse : String → Option JSVal)
    (tcs : List (Option ToolAcc)) (fr : Frag) (p : Nat) (hip : fr.index ≠ p) :
    slotAt (processFrag parse tcs fr).1 p = slotAt tcs p := by
  unfold processFrag
  split
  · dsimp only
    split
    · exact slotAt_padSet_ne tcs fr.index p _ (fun h => hip h.symm)
    · exact slotAt_padSet_ne tcs fr.index p _ (fun h => hip h.symm)
  · exact slotAt_set_ne tcs fr.index p _ (fun h => hip h.symm)

theorem processFrag_noid (parse : String → Option JSVal) {i : String}
    (tcs : List (Option ToolAcc)) (fr : Frag) (hi : i ≠ "")
    (htcs : tcsNoIdB i tcs = true) (hfr : fragNotIdB i fr = true) :
    tcsNoIdB i (processFrag parse tcs fr).1 = true ∧
    noToolEvtFor i (processFrag parse tcs fr).2 := by
  have hfr' : fr.id ≠ some i := by simpa [fragNotIdB] using hfr
  unfold processFrag
  split
  · dsimp only
    split
    · refine ⟨tcsNoIdB_padSet htcs ?_ _, ?_⟩
      · simp only [accNotIdB, newAccEvents_id]
        simpa using hfr'
      · intro e he
        rw [newAccEvents_evt_id parse _ _ e he]
        exact fun hc => getD_ne_of_ne hi hfr' (Option.some.inj hc)
    · refine ⟨tcsNoIdB_padSet htcs ?_ _, by intro e he; cases he⟩
      simpa [accNotIdB] using hfr'
  · rename_i a0 heq
    have ha0 : a0.id ≠ some i := tcsNoIdB_mem htcs (slotAt_mem heq)
    have hid1 : (updAccId fr a0).id ≠ some i := by
      rcases updAccId_id fr a0 with h1 | h1 <;> rw [h1]
      · exact ha0
      · exact hfr'
    constructor
    · apply tcsNoIdB_set htcs _ fr.index
      simp only [accNotIdB, updAccArgs_id, updAccName_id]
      simpa using hid1
    · intro e he
      rcases List.mem_append.1 he with he | he
      · rw [updAccName_evt_id _ _ e he]
        exact fun hc => getD_ne_of_ne hi hid1 (Option.some.inj hc)
      · rw [updAccArgs_evt_id _ _ _ e he, updAccName_id]
        exact fun hc => getD_ne_of_ne hi hid1 (Option.some.inj hc)

theorem processFrag_inv (parse : String → Option JSVal) {i : String} {p : Nat}
    (tcs : List (Option ToolAcc)) (fr : Frag) (hi : i ≠ "")
    (hinv : streamInv i p tcs)
    (hok : ((fr.index == p) || fragNotIdB i fr) = true) :
    streamInv i p (processFrag parse tcs fr).1 ∧
    noToolEvtFor i (processFrag parse tcs fr).2 := by
  obtain ⟨⟨a, hap, hsent, hstart, hid, hname⟩, hoth⟩ := hinv
  by_cases hip : fr.index = p
  · -- the fragment addresses the finalized position: everything is guarded
    subst hip
    unfold processFrag
    split
    · rename_i heq
      rw [heq] at hap
      cases hap
    · rename_i a0 heq
      rw [heq] at hap
      cases hap
      have htr : oTruthy a.id = true := by
        rw [hid]
        simpa [oTruthy] using hi
      rw [updAccId_of_truthy fr a htr, updAccName_of_named fr a hname]
      obtain ⟨hs', hst', hid', hname', hevs'⟩ :=
        updAccArgs_of_sent parse fr a hsent
      refine ⟨⟨⟨(updAccArgs parse fr a).1, ?_, hs', ?_, ?_, ?_⟩, ?_⟩, ?_⟩
      · exact slotAt_set_some _ _ _ (slotAt_isSome_lt heq)
      · rw [hst']
        exact hstart
      · rw [hid']
        exact hid
      · rw [hname']
        exact hname
      · intro q hq
        rw [slotAt_set_ne _ _ _ _ hq]
        exact hoth q hq
      · dsimp only
        rw [List.nil_append, hevs']
        intro e he
        cases he
  · -- the fragment addresses another position and cannot carry id i
    have hfr : fragNotIdB i fr = true := by
      rcases Bool.or_eq_true_iff.1 hok with h | h
      · exact absurd (by simpa using h) hip
      · exact h
    have hfr' : fr.id ≠ some i := by simpa [fragNotIdB] using hfr
    have hslotp : ∀ tcs', slotAt tcs' p = slotAt tcs p →
        sentInvAt i p tcs' := fun tcs' hpp =>
      ⟨a, hpp ▸ hap, hsent, hstart, hid, hname⟩
    unfold processFrag
    split
    · dsimp only
      split
      · refine ⟨⟨hslotp _ (slotAt_padSet_ne _ _ _ _ (fun h => hip h.symm)), ?_⟩, ?_⟩
        · intro q hq
          by_cases hqf : q = fr.index
          · subst hqf
            rw [slotAt_padSet_self]
            simp only [accNotIdB, newAccEvents_id]
            simpa using hfr'
          · rw [slotAt_padSet_ne _ _ _ _ hqf]
            exact hoth q hq
        · intro e he
          rw [newAccEvents_evt_id parse _ _ e he]
          exact fun hc => getD_ne_of_ne hi hfr' (Option.some.inj hc)
      · refine ⟨⟨hslotp _ (slotAt_padSet_ne _ _ _ _ (fun h => hip h.symm)), ?_⟩,
          by intro e he; cases he⟩
        intro q hq
        by_cases hqf : q = fr.index
        · subst hqf
          rw [slotAt_padSet_self]
          simpa [accNotIdB] using hfr'
        · rw [slotAt_padSet_ne _ _ _ _ hqf]
          exact hoth q hq
    · rename_i a0 heq
      have ha0 : a0.id ≠ some i := by
        have := hoth fr.index hip
        rw [heq] at this
        simpa [accNotIdB] using this
      have hid1 : (updAccId fr a0).id ≠ some i := by
        rcases updAccId_id fr a0 with h1 | h1 <;> rw [h1]
        · exact ha0
        · exact hfr'
      refine ⟨⟨hslotp _ (slotAt_set_ne _ _ _ _ (fun h => hip h.symm)), ?_⟩, ?_⟩
      · intro q hq
        by_cases hqf : q = fr.index
        · subst hqf
          rw [slotAt_set_some _ _ _ (slotAt_isSome_lt heq)]
          simp only [accNotIdB, updAccArgs_id, updAccName_id]
          simpa using hid1
        · rw [slotAt_set_ne _ _ _ _ hqf]
          exact hoth q hq
      · intro e he
        rcases List.mem_append.1 he with he | he
        · rw [updAccName_evt_id _ _ e he]
          exact fun hc => getD_ne_of_ne hi hid1 (Option.some.inj hc)
        · rw [updAccArgs_evt_id _ _ _ e he, updAccName_id]
          exact fun hc => getD_ne_of_ne hi hid1 (Option.some.inj hc)

theorem processFrags_noid (parse : String → Option JSVal) {i : String}
    (tcs : List (Option ToolAcc)) (l : List Frag) (hi : i ≠ "")
    (htcs : tcsNoIdB i tcs = true) (hl : l.all (fragNotIdB i) = true) :
    tcsNoIdB i (processFrags parse tcs l).1 = true ∧
    noToolEvtFor i (processFrags parse tcs l).2 := by
  induction l generalizing tcs with
  | nil => exact ⟨htcs, by intro e he; cases he⟩
  | cons fr rest ih =>
    simp only [List.all_cons, Bool.and_eq_true] at hl
    obtain ⟨h1, h2⟩ := processFrag_noid parse tcs fr hi htcs hl.1
    obtain ⟨h3, h4⟩ := ih _ h1 hl.2
    refine ⟨h3, ?_⟩
    intro e he
    simp only [processFrags, List.mem_append] at he
    rcases he with he | he
    · exact h2 e he
    · exact h4 e he

theorem processFrags_inv (parse : String → Option JSVal) {i : String} {p : Nat}
    (tcs : List (Option ToolAcc)) (l : List Frag) (hi : i ≠ "")
    (hinv : streamInv i p tcs)
    (hl : l.all (fun fr => (fr.index == p) || fragNotIdB i fr) = true) :
    streamInv i p (processFrags parse tcs l).1 ∧
    noToolEvtFor i (processFrags parse tcs l).2 := by
  induction l generalizing tcs with
  | nil => exact ⟨hinv, by intro e he; cases he⟩
  | cons fr rest ih =>
    simp only [List.all_cons, Bool.and_eq_true] at hl
    obtain ⟨h1, h2⟩ := processFrag_inv parse tcs fr hi hinv hl.1
    obtain ⟨h3, h4⟩ := ih _ h1 hl.2
    refine ⟨h3, ?_⟩
    intro e he
    simp only [processFrags, List.mem_append] at he
    rcases he with he | he
    · exact h2 e he
    · exact h4 e he

theorem processFrags_slot_ne (parse : String → Option JSVal)
    (tcs : List (Option ToolAcc)) (l : List Frag) (p : Nat)
    (hl : l.all (fun fr => !(fr.index == p)) = true) :
    slotAt (processFrags parse tcs l).1 p = slotAt tcs p := by
  induction l generalizing tcs with
  | nil => rfl
  | cons fr rest ih =>
    simp only [List.all_cons, Bool.and_eq_true] at hl
    have hfr : fr.index ≠ p := by simpa using hl.1
    simp only [processFrags]
    rw [ih _ hl.2, processFrag_slot_ne parse tcs fr p hfr]

/-- The tool-call fragments of a choice. -/
def chFrags (ch : SChoice) : List Frag :=
  match ch.delta with
  | some d => d.tool_calls.getD []
  | none => []

theorem itemFrags_frame (f : SFrame) :
    itemFrags (.frame f) = match f.choice with
                           | some ch => chFrags ch
                           | none => [] := by
  cases hc : f.choice with
  | none => simp [itemFrags, hc]
  | some ch => cases hd : ch.delta <;> simp [itemFrags, chFrags, hc, hd]

theorem finishStep_noid (parse : String → Option JSVal) (s : StState)
    (ch : SChoice) {i : String} (hi : i ≠ "")
    (htcs : tcsNoIdB i s.toolCalls = true) :
    tcsNoIdB i (finishStep parse s ch).1 = true ∧
    noToolEvtFor i (finishStep parse s ch).2.1 := by
  unfold finishStep
  split
  · exact finalizeOnFinish_noid parse hi htcs
  · exact ⟨htcs, by intro e he; cases he⟩

theorem finishStep_inv (parse : String → Option JSVal) (s : StState)
    (ch : SChoice) {i : String} {p : Nat} (hi : i ≠ "")
    (hinv : streamInv i p s.toolCalls) :
    streamInv i p (finishStep parse s ch).1 ∧
    noToolEvtFor i (finishStep parse s ch).2.1 := by
  unfold finishStep
  split
  · exact finalizeOnFinish_inv parse hi hinv
  · exact ⟨hinv, by intro e he; cases he⟩

theorem finishStep_slot_none (parse : String → Option JSVal) (s : StState)
    (ch : SChoice) {p : Nat} (h : slotAt s.toolCalls p = none) :
    slotAt (finishStep parse s ch).1 p = none := by
  unfold finishStep
  split
  · rw [finalizeOnFinish_slot, h]
    rfl
  · exact h

theorem processItem_noid (parse : String → Option JSVal) (s : StState)
    (it : Item) {i : String} (hi : i ≠ "")
    (htcs : tcsNoIdB i s.toolCalls = true)
    (hit : itemNoFragIdB i it = true) :
    tcsNoIdB i (processItem parse s it).1.toolCalls = true ∧
    noToolEvtFor i (processItem parse s it).2 := by
  cases it with
  | malformed => exact ⟨htcs, by intro e he; cases he⟩
  | frame f =>
    cases hc : f.choice with
    | none =>
      simp only [processItem, hc]
      exact ⟨htcs, by intro e he; cases he⟩
    | some ch =>
      have hfr : (chFrags ch).all (fragNotIdB i) = true := by
        have := hit
        unfold itemNoFragIdB at this
        rw [itemFrags_frame, hc] at this
        exact this
      obtain ⟨hf1, hf2⟩ := finishStep_noid parse s ch hi htcs
      cases hd : ch.delta with
      | none =>
        simp only [processItem, hc, processChoice, hd]
        exact ⟨hf1, hf2⟩
      | some d =>
        cases ht : d.tool_calls with
        | none =>
          simp only [processItem, hc, processChoice, hd, ht]
          refine ⟨hf1, ?_⟩
          intro e he
          simp only [List.mem_append, List.append_nil] at he
          rcases he with he | he
          · exact hf2 e he
          · revert he
            split
            · intro he
              simp only [List.mem_singleton] at he
              subst he
              simp [evtToolId]
            · intro he
              cases he
        | some l =>
          have hfr' : l.all (fragNotIdB i) = true := by
            simp only [chFrags, hd, ht, Option.getD_some] at hfr
            exact hfr
          obtain ⟨h3, h4⟩ :=
            processFrags_noid parse (finishStep parse s ch).1 l hi hf1 hfr'
          simp only [processItem, hc, processChoice, hd, ht]
          refine ⟨h3, ?_⟩
          intro e he
          simp only [List.mem_append] at he
          rcases he with (he | he) | he
          · exact hf2 e he
          · revert he
            split
            · intro he
              simp only [List.mem_singleton] at he
              subst he
              simp [evtToolId]
            · intro he
              cases he
          · exact h4 e he

theorem processItem_inv (parse : String → Option JSVal) (s : StState)
    (it : Item) {i : String} {p : Nat} (hi : i ≠ "")
    (hinv : streamInv i p s.toolCalls)
    (hit : itemFragsOkB i p it = true) :
    streamInv i p (processItem parse s it).1.toolCalls ∧
    noToolEvtFor i (processItem parse s it).2 := by
  cases it with
  | malformed => exact ⟨hinv, by intro e he; cases he⟩
  | frame f =>
    cases hc : f.choice with
    | none =>
      simp only [processItem, hc]
      exact ⟨hinv, by intro e he; cases he⟩
    | some ch =>
      have hfr : (chFrags ch).all
          (fun fr => (fr.index == p) || fragNotIdB i fr) = true := by
        have := hit
        unfold itemFragsOkB at this
        rw [itemFrags_frame, hc] at this
        exact this
      obtain ⟨hf1, hf2⟩ := finishStep_inv parse s ch hi hinv
      cases hd : ch.delta with
      | none =>
        simp only [processItem, hc, processChoice, hd]
        exact ⟨hf1, hf2⟩
      | some d =>
        cases ht : d.tool_calls with
        | none =>
          simp only [processItem, hc, processChoice, hd, ht]
          refine ⟨hf1, ?_⟩
          intro e he
          simp only [List.mem_append, List.append_nil] at he
          rcases he with he | he
          · exact hf2 e he
          · revert he
            split
            · intro he
              simp only [List.mem_singleton] at he
              subst he
              simp [evtToolId]
            · intro he
              cases he
        | some l =>
          have hfr' : l.all
              (fun fr => (fr.index == p) || fragNotIdB i fr) = true := by
            simp only [chFrags, hd, ht, Option.getD_some] at hfr
            exact hfr
          obtain ⟨h3, h4⟩ :=
            processFrags_inv parse (finishStep parse s ch).1 l hi hf1 hfr'
          simp only [processItem, hc, processChoice, hd, ht]
          refine ⟨h3, ?_⟩
          intro e he
          simp only [List.mem_append] at he
          rcases he with (he | he) | he
          · exact hf2 e he
          · revert he
            split
            · intro he
              simp only [List.mem_singleton] at he
              subst he
              simp [evtToolId]
            · intro he
              cases he
          · exact h4 e he

theorem processItem_slot_none (parse : String → Option JSVal) (s : StState)
    (it : Item) {p : Nat} (hit : itemNoFragAtB p it = true)
    (h : slotAt s.toolCalls p = none) :
    slotAt (processItem parse s it).1.toolCalls p = none := by
  cases it with
  | malformed => exact h
  | frame f =>
    cases hc : f.choice with
    | none =>
      simp only [processItem, hc]
      exact h
    | some ch =>
      have hfr : (chFrags ch).all (fun fr => !(fr.index == p)) = true := by
        have := hit
        unfold itemNoFragAtB at this
        rw [itemFrags_frame, hc] at this
        exact this
      have hf1 : slotAt (finishStep parse s ch).1 p = none :=
        finishStep_slot_none parse s ch h
      cases hd : ch.delta with
      | none =>
        simp only [processItem, hc, processChoice, hd]
        exact hf1
      | some d =>
        cases ht : d.tool_calls with
        | none =>
          simp only [processItem, hc, processChoice, hd, ht]
          exact hf1
        | some l =>
          have hfr' : l.all (fun fr => !(fr.index == p)) = true := by
            simp only [chFrags, hd, ht, Option.getD_some] at hfr
            exact hfr
          simp only [processItem, hc, processChoice, hd, ht]
          rw [processFrags_slot_ne parse _ _ _ hfr']
          exact hf1

theorem runItems_noid (parse : String → Option JSVal) (s : StState)
    (items : List Item) {i : String} (hi : i ≠ "")
    (htcs : tcsNoIdB i s.toolCalls = true)
    (hall : items.all (itemNoFragIdB i) = true) :
    tcsNoIdB i (runItems parse s items).1.toolCalls = true ∧
    noToolEvtFor i (runItems parse s items).2 := by
  induction items generalizing s with
  | nil => exact ⟨htcs, by intro e he; cases he⟩
  | cons it rest ih =>
    simp only [List.all_cons, Bool.and_eq_true] at hall
    obtain ⟨h1, h2⟩ := processItem_noid parse s it hi htcs hall.1
    obtain ⟨h3, h4⟩ := ih _ h1 hall.2
    refine ⟨h3, ?_⟩
    intro e he
    simp only [runItems, List.mem_append] at he
    rcases he with he | he
    · exact h2 e he
    · exact h4 e he

theorem runItems_inv (parse : String → Option JSVal) (s : StState)
    (items : List Item) {i : String} {p : Nat} (hi : i ≠ "")
    (hinv : streamInv i p s.toolCalls)
    (hall : items.all (itemFragsOkB i p) = true) :
    streamInv i p (runItems parse s items).1.toolCalls ∧
    noToolEvtFor i (runItems parse s items).2 := by
  induction items generalizing s with
  | nil => exact ⟨hinv, by intro e he; cases he⟩
  | cons it rest ih =>
    simp only [List.all_cons, Bool.and_eq_true] at hall
    obtain ⟨h1, h2⟩ := processItem_inv parse s it hi hinv hall.1
    obtain ⟨h3, h4⟩ := ih _ h1 hall.2
    refine ⟨h3, ?_⟩
    intro e he
    simp only [runItems, List.mem_append] at he
    rcases he with he | he
    · exact h2 e he
    · exact h4 e he

theorem runItems_slot_none (parse : String → Option JSVal) (s : StState)
    (items : List Item) {p : Nat} (hall : items.all (itemNoFragAtB p) = true)
    (h : slotAt s.toolCalls p = none) :
    slotAt (runItems parse s items).1.toolCalls p = none := by
  induction items generalizing s with
  | nil => exact h
  | cons it rest ih =>
    simp only [List.all_cons, Bool.and_eq_true] at hall
    exact ih _ hall.2 (processItem_slot_none parse s it hall.1 h)

theorem runItems_append (parse : String → Option JSVal) (s : StState)
    (l₁ l₂ : List Item) :
    runItems parse s (l₁ ++ l₂) =
      ((runItems parse (runItems parse s l₁).1 l₂).1,
       (runItems parse s l₁).2 ++ (runItems parse (runItems parse s l₁).1 l₂).2) := by
  induction l₁ generalizing s with
  | nil => simp [runItems]
  | cons it rest ih =>
    rw [List.cons_append]
    simp only [runItems]
    rw [ih]
    simp [List.append_assoc]

theorem jsOrD_some_of_ne {s : String} (d : String) (h : s ≠ "") :
    jsOrD (some s) d = s := by
  simp [jsOrD, h]

theorem oTruthy_some_of_ne {s : String} (h : s ≠ "") :
    oTruthy (some s) = true := by
  simp [oTruthy, h]

theorem tcsNoIdB_slot {i : String} {tcs : List (Option ToolAcc)}
    (h : tcsNoIdB i tcs = true) (q : Nat) :
    accNotIdB i (slotAt tcs q) = true := by
  cases hs : slotAt tcs q with
  | none => rfl
  | some a => simpa [accNotIdB] using tcsNoIdB_mem h (slotAt_mem hs)

/-- A fragment that creates a fresh accumulator with id, name and a
complete JSON argument string emits exactly
`tool-input-start, tool-input-delta, tool-input-end, tool-call`. -/
theorem processFrag_new_complete (parse : String → Option JSVal)
    (tcs : List (Option ToolAcc)) {i n args : String} {v : JSVal} {p : Nat}
    (hi : i ≠ "") (hn : n ≠ "") (hargs : args ≠ "") (hv : parse args = some v)
    (hslot : slotAt tcs p = none) :
    processFrag parse tcs ⟨p, some i, some n, some args⟩ =
      (padSet tcs p ⟨some i, n, args, true, true⟩,
       [.toolInputStart i n, .toolInputDelta i args, .toolInputEnd i,
        .toolCallEvt i n v]) := by
  unfold processFrag
  simp only [hslot]
  rw [jsOrD_some_of_ne _ hn, jsOrD_some_of_ne _ hargs]
  rw [if_pos (by simp [oTruthy_some_of_ne hi, hn])]
  unfold newAccEvents
  simp only [Option.getD_some]
  rw [if_neg hargs]
  simp only [hv]

end Helicone

namespace Helicone

/-- Processing the distinguished frame — arbitrary finish reason, text
delta and usage snapshot, and exactly the one tool-call fragment carrying
id, name and completely-parsing arguments — from a state in which no
accumulator carries id `i` and position `p` is empty: the tool events with
id `i` are exactly the four-event sequence, and the resulting state
satisfies the finalized-call invariant. -/
theorem processItem_single_complete (parse : String → Option JSVal)
    (s : StState) {i n args : String} {v : JSVal} {p : Nat}
    (fin contentD : Option String) (usage? : Option UsageSnap)
    (hi : i ≠ "") (hn : n ≠ "") (hargs : args ≠ "") (hv : parse args = some v)
    (htcs : tcsNoIdB i s.toolCalls = true)
    (hslot : slotAt s.toolCalls p = none) :
    streamInv i p (processItem parse s
      (.frame ⟨some ⟨fin, some ⟨contentD,
        some [⟨p, some i, some n, some args⟩]⟩⟩, usage?⟩)).1.toolCalls ∧
    (processItem parse s
      (.frame ⟨some ⟨fin, some ⟨contentD,
        some [⟨p, some i, some n, some args⟩]⟩⟩, usage?⟩)).2.filter
        (fun e => evtToolId e == some i) =
      [.toolInputStart i n, .toolInputDelta i args, .toolInputEnd i,
       .toolCallEvt i n v] := by
  have hch : (SFrame.mk (some ⟨fin, some ⟨contentD,
      some [⟨p, some i, some n, some args⟩]⟩⟩) usage?).choice =
      some ⟨fin, some ⟨contentD, some [⟨p, some i, some n, some args⟩]⟩⟩ := rfl
  obtain ⟨hf1, hf2⟩ := finishStep_noid parse s
    ⟨fin, some ⟨contentD, some [⟨p, some i, some n, some args⟩]⟩⟩ hi htcs
  have hfslot : slotAt (finishStep parse s
      ⟨fin, some ⟨contentD, some [⟨p, some i, some n, some args⟩]⟩⟩).1 p = none :=
    finishStep_slot_none parse s _ hslot
  have hfrag := processFrag_new_complete parse
    (finishStep parse s
      ⟨fin, some ⟨contentD, some [⟨p, some i, some n, some args⟩]⟩⟩).1
    hi hn hargs hv hfslot
  simp only [processItem, hch, processChoice, processFrags, hfrag]
  constructor
  · constructor
    · exact ⟨⟨some i, n, args, true, true⟩, slotAt_padSet_self _ _ _,
        rfl, rfl, rfl, hn⟩
    · intro q hq
      rw [slotAt_padSet_ne _ _ _ _ hq]
      exact tcsNoIdB_slot hf1 q
  · rw [List.filter_append, List.filter_append]
    have hfil1 : (finishStep parse s
        ⟨fin, some ⟨contentD, some [⟨p, some i, some n, some args⟩]⟩⟩).2.1.filter
          (fun e => evtToolId e == some i) = [] := by
      rw [List.filter_eq_nil]
      intro e he
      simpa using hf2 e he
    have hfil2 : (if oTruthy contentD = true then
          [Event.textDelta "text-0" (contentD.getD "")]
        else []).filter (fun e => evtToolId e == some i) = [] := by
      split <;> simp [evtToolId]
    rw [hfil1, hfil2]
    simp [evtToolId]

end Helicone

namespace Helicone

/-- An item with no fragment carrying id `i` satisfies the per-item
condition of the finalized-call invariant at any position. -/
theorem itemFragsOkB_of_noid {i : String} {p : Nat} {it : Item}
    (h : itemNoFragIdB i it = true) : itemFragsOkB i p it = true := by
  unfold itemNoFragIdB at h
  unfold itemFragsOkB
  exact List.all_eq_true.2 fun fr hfr => by
    rw [List.all_eq_true.1 h fr hfr]
    simp

/-- Events of a list with no tool event for id `i` filter to nothing. -/
theorem filter_eq_nil_of_noToolEvt {i : String} {l : List Event}
    (h : noToolEvtFor i l) :
    l.filter (fun e => evtToolId e == some i) = [] := by
  rw [List.filter_eq_nil]
  intro e he
  simpa using h e he

/-- C1: for every streaming tool call whose single fragment supplies a
(truthy) id, a (truthy) name and a complete JSON argument string in one
frame — where the call's position is fresh and its id is carried by no
other fragment of the stream, so that events can be attributed to it — the
emitted events for that call are exactly
`tool-input-start, tool-input-delta, tool-input-end, tool-call`, all four
carrying the call's id, and the stream ends with exactly one `finish`
event, which is last. -/
theorem single_frame_complete_call_sequence (parse : String → Option JSVal)
    (pre post : List Item) (p : Nat) (i n args : String) (v : JSVal)
    (fin contentD : Option String) (usage? : Option UsageSnap)
    (hi : i ≠ "") (hn : n ≠ "") (hargs : args ≠ "")
    (hv : parse args = some v)
    (hpreP : pre.all (itemNoFragAtB p) = true)
    (hpreI : pre.all (itemNoFragIdB i) = true)
    (hpostI : post.all (itemNoFragIdB i) = true) :
    (doStreamEvents parse
        (pre ++ .frame ⟨some ⟨fin, some ⟨contentD,
          some [⟨p, some i, some n, some args⟩]⟩⟩, usage?⟩ :: post)).filter
        (fun e => evtToolId e == some i) =
      [.toolInputStart i n, .toolInputDelta i args, .toolInputEnd i,
       .toolCallEvt i n v] ∧
    (doStreamEvents parse
        (pre ++ .frame ⟨some ⟨fin, some ⟨contentD,
          some [⟨p, some i, some n, some args⟩]⟩⟩, usage?⟩ :: post)).countP
        isFinishEvt = 1 ∧
    ∃ u r, (doStreamEvents parse
        (pre ++ .frame ⟨some ⟨fin, some ⟨contentD,
          some [⟨p, some i, some n, some args⟩]⟩⟩, usage?⟩ :: post)).getLast? =
      some (.finish u r) := by
  set theItem : Item := .frame ⟨some ⟨fin, some ⟨contentD,
    some [⟨p, some i, some n, some args⟩]⟩⟩, usage?⟩ with hItem
  obtain ⟨hpre1, hpre2⟩ := runItems_noid parse initState pre hi rfl hpreI
  have hpre3 : slotAt (runItems parse initState pre).1.toolCalls p = none :=
    runItems_slot_none parse initState pre hpreP rfl
  obtain ⟨hframe1, hframe2⟩ := processItem_single_complete parse
    (runItems parse initState pre).1 fin contentD usage? hi hn hargs hv
    hpre1 hpre3
  obtain ⟨_, hpost2⟩ := runItems_inv parse
    (processItem parse (runItems parse initState pre).1 theItem).1 post hi
    hframe1 (List.all_eq_true.2 fun it hit =>
      itemFragsOkB_of_noid (List.all_eq_true.1 hpostI it hit))
  refine ⟨?_, ?_, ?_⟩
  · unfold doStreamEvents
    rw [runItems_append]
    simp only [runItems]
    rw [List.filter_append, List.filter_append, List.filter_append,
      filter_eq_nil_of_noToolEvt hpre2, filter_eq_nil_of_noToolEvt hpost2,
      hframe2]
    simp [evtToolId]
  · unfold doStreamEvents
    rw [List.countP_append]
    have h0 : (runItems parse initState (pre ++ theItem :: post)).2.countP
        isFinishEvt = 0 := by
      rw [List.countP_eq_zero]
      intro e he
      simp [runItems_no_finish parse initState _ e he]
    rw [h0]
    simp [isFinishEvt, List.countP_cons]
  · exact ⟨_, _, by unfold doStreamEvents; rw [List.getLast?_concat]⟩

end Helicone

namespace Helicone

/-- The concrete single-frame complete tool call used as witness input. -/
def completeCallItem : Item :=
  .frame ⟨some ⟨none, some ⟨none, some [⟨0, some "a", some "f", some "[]"⟩]⟩⟩,
          none⟩

/-- Witness for C1 at a one-frame stream: id `a`, name `f`, complete
argument text `[]` parsed by `parseSq`. -/
theorem single_frame_complete_call_sequence_witness :
    (("a" : String) ≠ "" ∧ ("f" : String) ≠ "" ∧ ("[]" : String) ≠ "" ∧
      parseSq "[]" = some (.arr []) ∧
      ([] : List Item).all (itemNoFragAtB 0) = true ∧
      ([] : List Item).all (itemNoFragIdB "a") = true ∧
      ([] : List Item).all (itemNoFragIdB "a") = true) ∧
    (doStreamEvents parseSq [completeCallItem]).filter
        (fun e => evtToolId e == some "a") =
      [.toolInputStart "a" "f", .toolInputDelta "a" "[]", .toolInputEnd "a",
       .toolCallEvt "a" "f" (.arr [])] ∧
    (doStreamEvents parseSq [completeCallItem]).countP isFinishEvt = 1 ∧
    ∃ u r, (doStreamEvents parseSq [completeCallItem]).getLast? =
      some (.finish u r) :=
  ⟨⟨by decide, by decide, by decide, rfl, rfl, rfl, rfl⟩,
   single_frame_complete_call_sequence parseSq [] [] 0 "a" "f" "[]" (.arr [])
     none none none (by decide) (by decide) (by decide) rfl rfl rfl rfl⟩

end Helicone

namespace Helicone

/-- Whether an event is a `tool-input-delta`, `tool-input-end` or
`tool-call`. -/
def isDeltaEndCall : Event → Bool
  | .toolInputDelta .. => true
  | .toolInputEnd _ => true
  | .toolCallEvt .. => true
  | _ => false

/-- C3: once the accumulator at position `p` (with id `i`) is finalized —
a `tool-call` has been emitted for it — processing any further items
(whose fragments may address `p` freely, and whose fragments carrying id
`i` sit only at `p`) emits no further `tool-input-delta`,
`tool-input-end` or `tool-call` for that call: every such event of the
whole stream already lies in the prefix processed before finalization. -/
theorem finalized_position_never_reemits (parse : String → Option JSVal)
    (items₁ items₂ : List Item) (i : String) (p : Nat) (hi : i ≠ "")
    (hinv : streamInv i p (runItems parse initState items₁).1.toolCalls)
    (hall : items₂.all (itemFragsOkB i p) = true) :
    ∀ e ∈ doStreamEvents parse (items₁ ++ items₂),
      evtToolId e = some i → isDeltaEndCall e = true →
        e ∈ (runItems parse initState items₁).2 := by
  obtain ⟨_, hpost⟩ := runItems_inv parse (runItems parse initState items₁).1
    items₂ hi hinv hall
  intro e he hid hdec
  unfold doStreamEvents at he
  rw [runItems_append] at he
  simp only [List.mem_append, List.mem_singleton] at he
  rcases he with (he | he) | he
  · exact he
  · exact absurd hid (hpost e he)
  · subst he
    cases hdec

/-- The follow-up fragment at position 0 used by the C3 witness. -/
def lateFragItem : Item :=
  .frame ⟨some ⟨none, some ⟨none, some [⟨0, some "a", none, some "[]"⟩]⟩⟩, none⟩

/-- Witness for C3: after `completeCallItem` finalizes the call at
position 0, a later fragment at the same position (same id, more argument
text) produces no further delta/end/tool-call event for it. -/
theorem finalized_position_never_reemits_witness :
    (("a" : String) ≠ "" ∧
      streamInv "a" 0 (runItems parseSq initState [completeCallItem]).1.toolCalls ∧
      [lateFragItem].all (itemFragsOkB "a" 0) = true) ∧
    ∀ e ∈ doStreamEvents parseSq ([completeCallItem] ++ [lateFragItem]),
      evtToolId e = some "a" → isDeltaEndCall e = true →
        e ∈ (runItems parseSq initState [completeCallItem]).2 := by
  have hinv : streamInv "a" 0
      (runItems parseSq initState [completeCallItem]).1.toolCalls := by
    constructor
    · exact ⟨⟨some "a", "f", "[]", true, true⟩, rfl, rfl, rfl, rfl, by decide⟩
    · intro q hq
      cases q with
      | zero => exact absurd rfl hq
      | succ m => rfl
  exact ⟨⟨by decide, hinv, rfl⟩,
    finalized_position_never_reemits parseSq [completeCallItem] [lateFragItem]
      "a" 0 (by decide) hinv rfl⟩

/-!
### Non-streaming translation (C9, C10) -/

theorem translateGenerate_usage (parse : String → Option JSVal)
    (data : GenData) (r : GenResult)
    (h : translateGenerate parse data = .ok r) :
    r.usage = genUsage data.usage := by
  unfold translateGenerate at h
  cases hm : data.choices with
  | none =>
    rw [hm] at h
    cases h
  | some cs =>
    cases cs with
    | nil =>
      rw [hm] at h
      cases h
    | cons choice rest =>
      rw [hm] at h
      dsimp only at h
      split at h
      · cases h
      · rename_i toolContent hmt
        cases h
        rfl

/-- The C9 scenario response body. -/
def scenarioData : GenData :=
  ⟨some [⟨⟨some "hi", none⟩, some "stop"⟩], some ⟨some 5, some 2, none⟩⟩

/-- C9: `doGenerate` computes usage as `{input, output, total}` with total
falling back to `input + output` when `total_tokens` is absent, and the
concrete scenario — content `"hi"`, null `tool_calls`,
`finish_reason:"stop"`, usage `{prompt_tokens:5, completion_tokens:2}` —
yields `[{type:text, text:"hi"}]`, finish reason `stop`, and usage
`{5, 2, 7}`. -/
theorem doGenerate_usage_fallback_and_scenario :
    (∀ (parse : String → Option JSVal) (data : GenData) (r : GenResult)
        (pt ct : Nat),
      doGenerateOutcome parse data = .ok r →
      data.usage = some ⟨some pt, some ct, none⟩ →
      r.usage = ⟨pt, ct, pt + ct⟩) ∧
    ∀ parse : String → Option JSVal,
      doGenerateOutcome parse scenarioData =
        .ok ⟨[.text "hi"], "stop", ⟨5, 2, 7⟩⟩ := by
  constructor
  · intro parse data r pt ct h hu
    have ht : translateGenerate parse data = .ok r := by
      unfold doGenerateOutcome at h
      split at h
      · rename_i hok
        cases h
        exact hok
      · cases h
    rw [translateGenerate_usage parse data r ht, hu]
    rfl
  · intro parse
    rfl

/-- Witness for C9: the fallback conjunct applied at the scenario itself. -/
theorem doGenerate_usage_fallback_and_scenario_witness :
    doGenerateOutcome (fun _ => none) scenarioData =
      .ok ⟨[.text "hi"], "stop", ⟨5, 2, 7⟩⟩ ∧
    scenarioData.usage = some ⟨some 5, some 2, none⟩ ∧
    (⟨[.text "hi"], "stop", ⟨5, 2, 7⟩⟩ : GenResult).usage = ⟨5, 2, 5 + 2⟩ :=
  ⟨doGenerate_usage_fallback_and_scenario.2 (fun _ => none), rfl,
   doGenerate_usage_fallback_and_scenario.1 (fun _ => none) scenarioData
     ⟨[.text "hi"], "stop", ⟨5, 2, 7⟩⟩ 5 2
     (doGenerate_usage_fallback_and_scenario.2 (fun _ => none)) rfl⟩

/-- C10: a 2xx body whose `choices` is absent or empty makes the unguarded
`data.choices[0]` access throw; `doGenerate` returns no result and the
caught error is wrapped into the adapter's typed gateway error. -/
theorem doGenerate_missing_choices_raises (parse : String → Option JSVal)
    (data : GenData)
    (h : data.choices = none ∨ data.choices = some []) :
    (∀ r, doGenerateOutcome parse data ≠ .ok r) ∧
    ∃ m, doGenerateOutcome parse data = .heliconeError m := by
  rcases h with h | h
  · refine ⟨?_, "Failed to generate response: TypeError: data.choices is undefined", ?_⟩
    · intro r hr
      unfold doGenerateOutcome translateGenerate at hr
      rw [h] at hr
      cases hr
    · unfold doGenerateOutcome translateGenerate
      rw [h]
      rfl
  · refine ⟨?_, "Failed to generate response: TypeError: choices[0] is undefined", ?_⟩
    · intro r hr
      unfold doGenerateOutcome translateGenerate at hr
      rw [h] at hr
      cases hr
    · unfold doGenerateOutcome translateGenerate
      rw [h]
      rfl

/-- Witness for C10 at the body `{}` (no `choices` at all). -/
theorem doGenerate_missing_choices_raises_witness :
    ((⟨none, none⟩ : GenData).choices = none ∨
      (⟨none, none⟩ : GenData).choices = some []) ∧
    (∀ r, doGenerateOutcome (fun _ => none) ⟨none, none⟩ ≠ .ok r) ∧
    ∃ m, doGenerateOutcome (fun _ => none) ⟨none, none⟩ = .heliconeError m :=
  ⟨Or.inl rfl,
   doGenerate_missing_choices_raises (fun _ => none) ⟨none, none⟩ (Or.inl rfl)⟩

/-!
### Tool-schema conversion fallback (C6)

When `asSchema` throws, the source falls back to the *raw* `tool.parameters`
value whenever `typeof` reports an object, and only substitutes
`{type:"object"}` for non-object values — the tool is always still
submitted. -/

/-- A conversion helper that always throws. -/
def convThrows : JSVal → Option JSVal := fun _ => none

/-- A raw (e.g. Zod-shaped) `parameters` object that is not a JSON
Schema. -/
def rawZodish : JSVal := .obj [("foo", .str "bar")]

/-- The tool definition of the C6 counterexample. -/
def weatherTool : ToolDef :=
  ⟨some "getWeather", none, some "Get the weather", some rawZodish, none⟩

/-- C6 counterexample: with a throwing conversion helper and an
object-typed `parameters`, the submitted tool's `parameters` is the raw
object — not `{type:"object"}` as claimed.  (The tool is still included
and the request is not aborted.) -/
theorem tool_schema_fallback_counterexample :
    buildToolsField convThrows (some [weatherTool]) =
      some [⟨some "getWeather", "Get the weather", rawZodish⟩] ∧
    rawZodish ≠ objTypeObject := by
  refine ⟨rfl, ?_⟩
  simp [rawZodish, objTypeObject]

/-- C6 as amended: for every tool whose schema conversion throws on its
truthy `parameters` value, the tool is still included in the outbound
body at its position (the request is not aborted), with its name and
defaulted description intact; its `parameters` falls back to the raw
value when that value is object-typed, and to `{type:"object"}`
otherwise. -/
theorem tool_schema_failure_best_effort (conv : JSVal → Option JSVal)
    (tools : List ToolDef) (k : Nat) (t : ToolDef) (pv : JSVal)
    (hk : tools.get? k = some t) (hp : t.parameters = some pv)
    (ht : jsTruthyVal pv = true) (hc : conv pv = none) :
    ∃ wts, buildToolsField conv (some tools) = some wts ∧
      wts.length = tools.length ∧
      wts.get? k = some ⟨jsOrOpt t.name t.toolName, jsOrD t.description "",
        if jsTypeofObject pv then pv else objTypeObject⟩ := by
  have hlen : 0 < tools.length := by
    cases tools with
    | nil => cases hk
    | cons a l => simp
  refine ⟨tools.map (mapTool conv), ?_, by simp, ?_⟩
  · simp [buildToolsField, hlen]
  · rw [List.get?_map, hk, Option.map_some']
    simp [mapTool, mapToolParameters, hp, ht, hc]

/-- Witness for the amended C6 at the concrete throwing conversion. -/
theorem tool_schema_failure_best_effort_witness :
    [weatherTool].get? 0 = some weatherTool ∧
    weatherTool.parameters = some rawZodish ∧
    jsTruthyVal rawZodish = true ∧
    convThrows rawZodish = none ∧
    ∃ wts, buildToolsField convThrows (some [weatherTool]) = some wts ∧
      wts.length = [weatherTool].length ∧
      wts.get? 0 = some ⟨jsOrOpt weatherTool.name weatherTool.toolName,
        jsOrD weatherTool.description "",
        if jsTypeofObject rawZodish then rawZodish else objTypeObject⟩ :=
  ⟨rfl, rfl, rfl, rfl,
   tool_schema_failure_best_effort convThrows [weatherTool] 0 weatherTool
     rawZodish rfl rfl rfl rfl⟩

/-!
### Message-translator validation (C5)

The user branch, tool branch and role `default` all throw on unsupported
values — but the assistant branch maps parts of unsupported types to `''`
and silently drops them. -/

/-- Part types the user branch converts. -/
def isUserSupported : Part → Bool
  | .text _ => true
  | .file .. => true
  | _ => false

/-- Whether a part is a tool-result part. -/
def isToolResultPart : Part → Bool
  | .toolResult .. => true
  | _ => false

/-- Part types the assistant branch silently maps to `''` (neither
text/reasoning contributors nor separately-handled tool calls). -/
def isAssistantIgnored : Part → Bool
  | .file .. => true
  | .toolResult .. => true
  | _ => false

theorem convertUserPart_ok (b64 : List Nat → String) (p : Part)
    (h : isUserSupported p = true) : ∃ u, convertUserPart b64 p = .ok u := by
  cases p with
  | text t => exact ⟨_, rfl⟩
  | file d mt =>
    cases d with
    | url u => exact ⟨_, rfl⟩
    | strData s => exact ⟨_, rfl⟩
    | bytes bs => exact ⟨_, rfl⟩
  | reasoning t => simp [isUserSupported] at h
  | toolCall a b c d => simp [isUserSupported] at h
  | toolResult a b c => simp [isUserSupported] at h

theorem convertUserPart_err (b64 : List Nat → String) (p : Part)
    (h : isUserSupported p = false) :
    convertUserPart b64 p =
      .error ("Unsupported content type: " ++ p.typeName) := by
  cases p with
  | text t => simp [isUserSupported] at h
  | file d mt => simp [isUserSupported] at h
  | reasoning t => rfl
  | toolCall a b c d => rfl
  | toolResult a b c => rfl

theorem mapM_user_err (b64 : List Nat → String) (pre : List Part) (p : Part)
    (rest : List Part) (hpre : pre.all isUserSupported = true)
    (hp : isUserSupported p = false) :
    (pre ++ p :: rest).mapM (convertUserPart b64) =
      .error ("Unsupported content type: " ++ p.typeName) := by
  induction pre with
  | nil =>
    rw [List.nil_append, List.mapM_cons, convertUserPart_err b64 p hp]
    rfl
  | cons q pre' ih =>
    simp only [List.all_cons, Bool.and_eq_true] at hpre
    obtain ⟨u, hu⟩ := convertUserPart_ok b64 q hpre.1
    rw [List.cons_append, List.mapM_cons, hu, ih hpre.2]
    rfl

theorem convertToolTurn_err (strfy : JSVal → String) (pre : List Part)
    (p : Part) (rest : List Part) (hpre : pre.all isToolResultPart = true)
    (hp : isToolResultPart p = false) :
    convertToolTurn strfy (pre ++ p :: rest) =
      .error ("Unsupported tool content type: " ++ p.typeName) := by
  induction pre with
  | nil =>
    rw [List.nil_append]
    cases p with
    | toolResult a b c => simp [isToolResultPart] at hp
    | text t => rfl
    | reasoning t => rfl
    | toolCall a b c d => rfl
    | file d mt => rfl
  | cons q pre' ih =>
    simp only [List.all_cons, Bool.and_eq_true] at hpre
    obtain ⟨hq, hrest⟩ := hpre
    cases q with
    | toolResult id name output =>
      rw [List.cons_append]
      simp only [convertToolTurn]
      rw [ih hrest]
    | text t => simp [isToolResultPart] at hq
    | reasoning t => simp [isToolResultPart] at hq
    | toolCall a b c d => simp [isToolResultPart] at hq
    | file d mt => simp [isToolResultPart] at hq

theorem convertMessage_assistant_ignored (strfy : JSVal → String)
    (b64 : List Nat → String) (parts : List Part)
    (h : parts.all isAssistantIgnored = true) :
    convertMessage strfy b64 (.assistant parts) =
      .ok [⟨"assistant", none, none, none, none⟩] := by
  have h1 : (parts.map assistantPartText).filter (fun s => s != "") = [] := by
    rw [List.filter_eq_nil]
    intro s hs
    rcases List.mem_map.1 hs with ⟨q, hq, rfl⟩
    have hqi := List.all_eq_true.1 h q hq
    cases q with
    | file d mt => simp [assistantPartText]
    | toolResult a b c => simp [assistantPartText]
    | text t => simp [isAssistantIgnored] at hqi
    | reasoning t => simp [isAssistantIgnored] at hqi
    | toolCall a b c d => simp [isAssistantIgnored] at hqi
  have h2 : parts.filter isToolCallPart = [] := by
    rw [List.filter_eq_nil]
    intro q hq
    have hqi := List.all_eq_true.1 h q hq
    cases q with
    | file d mt => simp [isToolCallPart]
    | toolResult a b c => simp [isToolCallPart]
    | text t => simp [isAssistantIgnored] at hqi
    | reasoning t => simp [isAssistantIgnored] at hqi
    | toolCall a b c d => simp [isAssistantIgnored] at hqi
  simp [convertMessage, h1, h2, String.join]

theorem convertToHeliconePrompt_single_err (strfy : JSVal → String)
    (b64 : List Nat → String) (m : LMMessage) (e : String)
    (hm : convertMessage strfy b64 m = .error e) :
    convertToHeliconePrompt strfy b64 [m] = .error e := by
  simp only [convertToHeliconePrompt, hm]

theorem convertToHeliconePrompt_append_err (strfy : JSVal → String)
    (b64 : List Nat → String) (pre : List LMMessage) (bad : LMMessage)
    (rest : List LMMessage) (ms : List WireMessage) (e : String)
    (hok : convertToHeliconePrompt strfy b64 pre = .ok ms)
    (hbad : convertMessage strfy b64 bad = .error e) :
    convertToHeliconePrompt strfy b64 (pre ++ bad :: rest) = .error e := by
  induction pre generalizing ms with
  | nil =>
    rw [List.nil_append]
    simp only [convertToHeliconePrompt, hbad]
  | cons m pre' ih =>
    rw [List.cons_append]
    simp only [convertToHeliconePrompt] at hok ⊢
    cases hm : convertMessage strfy b64 m with
    | error e' =>
      rw [hm] at hok
      cases hok
    | ok ms1 =>
      rw [hm] at hok
      cases hr : convertToHeliconePrompt strfy b64 pre' with
      | error e' =>
        rw [hr] at hok
        simp at hok
      | ok ms2 =>
        rw [ih ms2 hr]

end Helicone

namespace Helicone

/-- A concrete stringify/base64 pair for counterexamples and witnesses. -/
def strfyNull : JSVal → String := fun _ => "null"

/-- A concrete base64 encoder stub. -/
def b64Empty : List Nat → String := fun _ => ""

/-- The assistant turn with one URL-file part of the C5 counterexample. -/
def droppedAssistantTurn : LMMessage :=
  .assistant [.file (.url "https://img.example/a.png") none]

/-- C5 counterexample: an assistant turn whose only part has an
unsupported type (`file`) does not fail — the translator returns an
assistant wire message with no content and no tool calls, silently
dropping the part. -/
theorem translator_assistant_silent_drop_counterexample :
    convertToHeliconePrompt strfyNull b64Empty [droppedAssistantTurn] =
      .ok [⟨"assistant", none, none, none, none⟩] ∧
    ∀ e, convertToHeliconePrompt strfyNull b64Empty [droppedAssistantTurn] ≠
      .error e := by
  have h1 : convertToHeliconePrompt strfyNull b64Empty [droppedAssistantTurn] =
      .ok [⟨"assistant", none, none, none, none⟩] := rfl
  refine ⟨h1, ?_⟩
  intro e h
  rw [h1] at h
  cases h

/-- C5 as amended: user turns with an unsupported part, tool turns with a
part that is not a tool result, and turns with an unrecognized role all
fail with an error naming the unsupported value (with earlier supported
turns and parts converting first), but assistant-turn parts of unsupported
types are silently mapped to empty content and dropped without error. -/
theorem translator_validation_amended :
    (∀ (strfy : JSVal → String) (b64 : List Nat → String) (pre : List Part)
        (p : Part) (rest : List Part),
      pre.all isUserSupported = true → isUserSupported p = false →
      convertToHeliconePrompt strfy b64 [.user (pre ++ p :: rest)] =
        .error ("Unsupported content type: " ++ p.typeName)) ∧
    (∀ (strfy : JSVal → String) (b64 : List Nat → String) (pre : List Part)
        (p : Part) (rest : List Part),
      pre.all isToolResultPart = true → isToolResultPart p = false →
      convertToHeliconePrompt strfy b64 [.tool (pre ++ p :: rest)] =
        .error ("Unsupported tool content type: " ++ p.typeName)) ∧
    (∀ (strfy : JSVal → String) (b64 : List Nat → String) (r : String),
      convertToHeliconePrompt strfy b64 [.unknownRole r] =
        .error ("Unsupported message role: " ++ r)) ∧
    (∀ (strfy : JSVal → String) (b64 : List Nat → String) (parts : List Part),
      parts.all isAssistantIgnored = true →
      convertToHeliconePrompt strfy b64 [.assistant parts] =
        .ok [⟨"assistant", none, none, none, none⟩]) ∧
    (∀ (strfy : JSVal → String) (b64 : List Nat → String)
        (pre : List LMMessage) (bad : LMMessage) (rest : List LMMessage)
        (ms : List WireMessage) (e : String),
      convertToHeliconePrompt strfy b64 pre = .ok ms →
      convertMessage strfy b64 bad = .error e →
      convertToHeliconePrompt strfy b64 (pre ++ bad :: rest) = .error e) := by
  refine ⟨?_, ?_, ?_, ?_, ?_⟩
  · intro strfy b64 pre p rest hpre hp
    apply convertToHeliconePrompt_single_err
    simp only [convertMessage, mapM_user_err b64 pre p rest hpre hp]
  · intro strfy b64 pre p rest hpre hp
    apply convertToHeliconePrompt_single_err
    simp only [convertMessage]
    exact convertToolTurn_err strfy pre p rest hpre hp
  · intro strfy b64 r
    apply convertToHeliconePrompt_single_err
    rfl
  · intro strfy b64 parts h
    simp only [convertToHeliconePrompt,
      convertMessage_assistant_ignored strfy b64 parts h]
    rfl
  · exact fun strfy b64 pre bad rest ms e hok hbad =>
      convertToHeliconePrompt_append_err strfy b64 pre bad rest ms e hok hbad

/-- Witness for the amended C5 at concrete turns: a user turn carrying a
tool-call part, a tool turn carrying a text part, a `developer`-role turn,
the all-dropped assistant turn, and error propagation past an earlier
system turn. -/
theorem translator_validation_amended_witness :
    ([] : List Part).all isUserSupported = true ∧
    isUserSupported (.toolCall "c1" "t" .null none) = false ∧
    convertToHeliconePrompt strfyNull b64Empty
        [.user [.toolCall "c1" "t" .null none]] =
      .error ("Unsupported content type: " ++
        Part.typeName (.toolCall "c1" "t" .null none)) ∧
    convertToHeliconePrompt strfyNull b64Empty [.tool [.text "hi"]] =
      .error ("Unsupported tool content type: " ++ Part.typeName (.text "hi")) ∧
    convertToHeliconePrompt strfyNull b64Empty [.unknownRole "developer"] =
      .error ("Unsupported message role: " ++ "developer") ∧
    convertToHeliconePrompt strfyNull b64Empty [droppedAssistantTurn] =
      .ok [⟨"assistant", none, none, none, none⟩] ∧
    convertToHeliconePrompt strfyNull b64Empty
        [.system "s", .unknownRole "weird"] =
      .error ("Unsupported message role: " ++ "weird") := by
  refine ⟨rfl, rfl, ?_, ?_, ?_, ?_, ?_⟩
  · exact translator_validation_amended.1 strfyNull b64Empty []
      (.toolCall "c1" "t" .null none) [] rfl rfl
  · exact translator_validation_amended.2.1 strfyNull b64Empty [] (.text "hi")
      [] rfl rfl
  · exact translator_validation_amended.2.2.1 strfyNull b64Empty "developer"
  · exact translator_validation_amended.2.2.2.1 strfyNull b64Empty
      [.file (.url "https://img.example/a.png") none] rfl
  · exact translator_validation_amended.2.2.2.2 strfyNull b64Empty
      [.system "s"] (.unknownRole "weird") [] [⟨"system",
        some (.str "s"), none, none, none⟩] ("Unsupported message role: " ++
        "weird") rfl rfl

end Helicone
